import Mathlib

/-!
The annotation-driven rewrite rules of `OnDefineDomain` (android-x86-hook).

Shallow embedding of `src/android-x86-hook/android-x86-hook.go`.

The Go handler decodes a VMI descriptor (JSON) and a libvirt domain document
(XML), runs five annotation-gated edits on the decoded `domainSchema.Domain`
value, and encodes the result.  The edits are embedded here as functions
`Annotations → Domain → Except Fault Domain`; a Go runtime panic raised by an
edit (nil pointer dereference, index out of range) is the `Except.error` case.

The struct types come from `github.com/libvirt/libvirt-go-xml`; only the fields
the handler touches are spelled out, every other field of a struct is carried
along unchanged in an uninterpreted `rest` component.  Pointer-typed fields are
`Option`s (`nil` is `none`), slices are `List`s (`append` is `++ [x]`).
-/

namespace AndroidX86Hook

/-! ## Annotation keys (source lines 40-45) -/

def baseBoardManufacturerAnnotation : String := "smbios.vm.kubevirt.io/baseBoardManufacturer"
def videoModelAnnotation : String := "video.vm.kubevirt.io/model"
def vgpuAnnotation : String := "video.vm.kubevirt.io/vgpu"
def eglHeadlessAnnotation : String := "graphics.vm.kubevirt.io/eglHeadless"
def qemuArgsAnnotation : String := "qemu.vm.kubevirt.io/args"
def hookName : String := "android-x86"

/-- The annotation map of the VMI (`map[string]string`).  The handler only ever
looks keys up (`v, found := annotations[k]`), so the map is its lookup function:
`none` is `found = false`, `some v` is `found = true` with value `v`. -/
abbrev Annotations := String → Option String

/-- The map with no keys (also the Go `nil` map). -/
def Annotations.empty : Annotations := fun _ => none

/-- The map `m` with key `k` bound to `v`. -/
def Annotations.insert (m : Annotations) (k v : String) : Annotations :=
  fun k' => if k' = k then some v else m k'

/-- The map `m` with key `k` removed. -/
def Annotations.erase (m : Annotations) (k : String) : Annotations :=
  fun k' => if k' = k then none else m k'

/-! ## The domain document (`domainSchema.Domain` and the nodes the hook touches) -/

/-- Fields of a libvirt-go-xml struct that the hook neither reads nor writes,
as uninterpreted (element name, content) data.  The Go zero value is `[]`. -/
abbrev Unmodelled := List (String × String)

/-- `DomainSMBios`: the `/os/smbios` node. -/
structure DomainSMBios where
  Mode : String := ""
  deriving DecidableEq, Repr

/-- `DomainOS`: the `/os` node; `SMBios *DomainSMBios`. -/
structure DomainOS where
  SMBios : Option DomainSMBios := none
  rest : Unmodelled := []
  deriving DecidableEq, Repr

/-- `DomainSysInfoEntry`: one `(name, value)` entry. -/
structure DomainSysInfoEntry where
  Name : String := ""
  Value : String := ""
  deriving DecidableEq, Repr

/-- `DomainSysInfoBaseBoard`: `Entry []DomainSysInfoEntry`. -/
structure DomainSysInfoBaseBoard where
  Entry : List DomainSysInfoEntry := []
  deriving DecidableEq, Repr

/-- `DomainSysInfo`: the `/sysinfo` node; `Type string`, `BaseBoard []DomainSysInfoBaseBoard`
(the Go field `Type` is spelled `Type_`, `Type` being reserved). -/
structure DomainSysInfo where
  Type_ : String := ""
  BaseBoard : List DomainSysInfoBaseBoard := []
  rest : Unmodelled := []
  deriving DecidableEq, Repr

/-- `DomainVideoModel`: a value (not a pointer) inside `DomainVideo`. -/
structure DomainVideoModel where
  Type_ : String := ""
  rest : Unmodelled := []
  deriving DecidableEq, Repr

/-- `DomainVideo`: `Model DomainVideoModel`. -/
structure DomainVideo where
  Model : DomainVideoModel := {}
  rest : Unmodelled := []
  deriving DecidableEq, Repr

/-- `DomainGraphicEGLHeadless`: a struct without fields. -/
structure DomainGraphicEGLHeadless where
  deriving DecidableEq, Repr

/-- `DomainGraphic`: one pointer per variant; the other variants (SDL, VNC, RDP,
Desktop, Spice) are in `rest`. -/
structure DomainGraphic where
  EGLHeadless : Option DomainGraphicEGLHeadless := none
  rest : Unmodelled := []
  deriving DecidableEq, Repr

/-- `DomainAddressMDev`: `UUID string`. -/
structure DomainAddressMDev where
  UUID : String := ""
  deriving DecidableEq, Repr

/-- `DomainHostdevSubsysMDevSource`: `Address *DomainAddressMDev`. -/
structure DomainHostdevSubsysMDevSource where
  Address : Option DomainAddressMDev := none
  deriving DecidableEq, Repr

/-- `DomainHostdevSubsysMDev`: `Model`, `Display`, `Source`. -/
structure DomainHostdevSubsysMDev where
  Model : String := ""
  Display : String := ""
  Source : Option DomainHostdevSubsysMDevSource := none
  deriving DecidableEq, Repr

/-- `DomainAddressPCI`: four `*uint` fields (constants 0 and 5 only, no arithmetic). -/
structure DomainAddressPCI where
  Domain : Option Nat := none
  Bus : Option Nat := none
  Slot : Option Nat := none
  Function : Option Nat := none
  rest : Unmodelled := []
  deriving DecidableEq, Repr

/-- `DomainAddress`: `PCI *DomainAddressPCI`; the other address kinds are in `rest`. -/
structure DomainAddress where
  PCI : Option DomainAddressPCI := none
  rest : Unmodelled := []
  deriving DecidableEq, Repr

/-- `DomainHostdev`: `Managed string`, `SubsysMDev`, `Address`. -/
structure DomainHostdev where
  Managed : String := ""
  SubsysMDev : Option DomainHostdevSubsysMDev := none
  Address : Option DomainAddress := none
  rest : Unmodelled := []
  deriving DecidableEq, Repr

/-- `DomainDeviceList`: the `/devices` node. -/
structure DomainDeviceList where
  Videos : List DomainVideo := []
  Graphics : List DomainGraphic := []
  Hostdevs : List DomainHostdev := []
  rest : Unmodelled := []
  deriving DecidableEq, Repr

/-- `DomainQEMUCommandlineArg`: `Value string`. -/
structure DomainQEMUCommandlineArg where
  Value : String := ""
  deriving DecidableEq, Repr

/-- `DomainQEMUCommandline`: `Args []DomainQEMUCommandlineArg` (and `Envs`, in `rest`). -/
structure DomainQEMUCommandline where
  Args : List DomainQEMUCommandlineArg := []
  rest : Unmodelled := []
  deriving DecidableEq, Repr

/-- `Domain`: in libvirt-go-xml `SysInfo *DomainSysInfo`, `OS *DomainOS`,
`Devices *DomainDeviceList` and `QEMUCommandline *DomainQEMUCommandline` are all
pointers, `nil` when the element is absent from the decoded XML. -/
structure Domain where
  SysInfo : Option DomainSysInfo := none
  OS : Option DomainOS := none
  Devices : Option DomainDeviceList := none
  QEMUCommandline : Option DomainQEMUCommandline := none
  rest : Unmodelled := []
  deriving DecidableEq, Repr

/-- A Go runtime panic raised while the edits run. -/
inductive Fault where
  | nilPointerDereference
  | indexOutOfRange
  deriving DecidableEq, Repr

/-! ## The five edits of `OnDefineDomain` (source lines 89-189) -/

/-- Source lines 89-110.  `domain.OS.SMBios = ...` writes through the pointer
`domain.OS`, which panics when it is `nil`. -/
def baseBoardRule (annotations : Annotations) (domain : Domain) : Except Fault Domain :=
  match annotations baseBoardManufacturerAnnotation with
  | none => .ok domain
  | some baseBoardManufacturer =>
    match domain.OS with
    | none => .error .nilPointerDereference
    | some os =>
      let domain : Domain := { domain with OS := some { os with SMBios := some { Mode := "sysinfo" } } }
      let sysInfo : DomainSysInfo :=
        match domain.SysInfo with
        | none => {}
        | some s => s
      let sysInfo : DomainSysInfo := { sysInfo with Type_ := "smbios" }
      let baseBoard : DomainSysInfoBaseBoard :=
        { Entry := [] ++ [{ Name := "manufacturer", Value := baseBoardManufacturer }] }
      .ok { domain with SysInfo := some { sysInfo with BaseBoard := sysInfo.BaseBoard ++ [baseBoard] } }

/-- Source lines 112-122.  `domain.Devices.Videos` reads through the pointer
`domain.Devices`; `Videos[0]` is an index expression. -/
def videoModelRule (annotations : Annotations) (domain : Domain) : Except Fault Domain :=
  match annotations videoModelAnnotation with
  | none => .ok domain
  | some videoModel =>
    match domain.Devices with
    | none => .error .nilPointerDereference
    | some devices =>
      let videos : List DomainVideo :=
        if devices.Videos.length = 0 then devices.Videos ++ [{}] else devices.Videos
      match videos with
      | [] => .error .indexOutOfRange
      | v0 :: vs =>
        .ok { domain with
              Devices := some { devices with
                Videos := { v0 with Model := { v0.Model with Type_ := videoModel } } :: vs } }

/-- Source lines 124-134.  The annotation value is discarded (`_, found := ...`). -/
def eglHeadlessRule (annotations : Annotations) (domain : Domain) : Except Fault Domain :=
  match annotations eglHeadlessAnnotation with
  | none => .ok domain
  | some _ =>
    let eglHeadlessGraphics : DomainGraphic := { EGLHeadless := some {} }
    match domain.Devices with
    | none => .error .nilPointerDereference
    | some devices =>
      .ok { domain with Devices := some { devices with Graphics := devices.Graphics ++ [eglHeadlessGraphics] } }

/-- Source lines 136-167. -/
def vgpuRule (annotations : Annotations) (domain : Domain) : Except Fault Domain :=
  match annotations vgpuAnnotation with
  | none => .ok domain
  | some vgpu =>
    let pci_domain : Nat := 0x0000
    let pci_bus : Nat := 0x00
    let pci_slot : Nat := 0x05
    let pci_function : Nat := 0x0
    let hostDev : DomainHostdev :=
      { Managed := "no",
        SubsysMDev := some
          { Model := "vfio-pci",
            Display := "on",
            Source := some { Address := some { UUID := vgpu } } },
        Address := some
          { PCI := some
              { Domain := some pci_domain,
                Bus := some pci_bus,
                Slot := some pci_slot,
                Function := some pci_function } } }
    match domain.Devices with
    | none => .error .nilPointerDereference
    | some devices =>
      .ok { domain with Devices := some { devices with Hostdevs := devices.Hostdevs ++ [hostDev] } }

/-- The loop of source lines 183-187: one `append` per decoded string, in order. -/
def appendArgs (args : List DomainQEMUCommandlineArg) : List String → List DomainQEMUCommandlineArg
  | [] => args
  | qemuArg :: more => appendArgs (args ++ [{ Value := qemuArg }]) more

/-- Source lines 169-189.  `unmarshalArgs` is `json.Unmarshal([]byte(s), &qemuArgs)`
for `qemuArgs []string` (Go standard library): `none` when it returns an error,
`some l` with the decoded strings otherwise. -/
def qemuArgsRule (unmarshalArgs : String → Option (List String))
    (annotations : Annotations) (domain : Domain) : Except Fault Domain :=
  match annotations qemuArgsAnnotation with
  | none => .ok domain
  | some qemuArgsString =>
    match unmarshalArgs qemuArgsString with
    | none => .ok domain
    | some qemuArgs =>
      let commandline : DomainQEMUCommandline :=
        match domain.QEMUCommandline with
        | none => {}
        | some c => c
      .ok { domain with
            QEMUCommandline := some { commandline with Args := appendArgs commandline.Args qemuArgs } }

/-- Source lines 89-189: the five edits in the order of the source, each seeing
the document left by the previous one; a panic ends the sequence. -/
def applyRules (unmarshalArgs : String → Option (List String))
    (annotations : Annotations) (domain : Domain) : Except Fault Domain := do
  let domain ← baseBoardRule annotations domain
  let domain ← videoModelRule annotations domain
  let domain ← eglHeadlessRule annotations domain
  let domain ← vgpuRule annotations domain
  qemuArgsRule unmarshalArgs annotations domain

/-! ## The rules as a list, to speak about other orders -/

/-- Names of the five edits. -/
inductive Rule where
  | baseBoard
  | videoModel
  | eglHeadless
  | vgpu
  | qemuArgs
  deriving DecidableEq, Repr

/-- The edit a name stands for. -/
def Rule.run (unmarshalArgs : String → Option (List String)) :
    Rule → Annotations → Domain → Except Fault Domain
  | .baseBoard => baseBoardRule
  | .videoModel => videoModelRule
  | .eglHeadless => eglHeadlessRule
  | .vgpu => vgpuRule
  | .qemuArgs => qemuArgsRule unmarshalArgs

/-- Run the named edits from left to right, stopping at the first panic. -/
def runRules (unmarshalArgs : String → Option (List String)) (annotations : Annotations) :
    List Rule → Domain → Except Fault Domain
  | [], domain => .ok domain
  | r :: rs, domain =>
    match r.run unmarshalArgs annotations domain with
    | .error f => .error f
    | .ok domain => runRules unmarshalArgs annotations rs domain

/-- The order in which `OnDefineDomain` runs the edits. -/
def sourceOrder : List Rule := [.baseBoard, .videoModel, .eglHeadless, .vgpu, .qemuArgs]

/-! ## The handler (source lines 68-202) -/

/-- Payloads on the wire (`[]byte`), uninterpreted. -/
abbrev Bytes := List Nat

/-- The library functions the handler calls on its payloads; `none` is a
returned `err != nil`.
* `unmarshalVMI`: `json.Unmarshal(vmiJSON, &vmiSpec)` then `vmiSpec.GetAnnotations()`;
* `unmarshalDomain`: `xml.Unmarshal(domainXML, &domain)`;
* `unmarshalArgs`: `json.Unmarshal([]byte(qemuArgsString), &qemuArgs)`;
* `marshalDomain`: `xml.Marshal(domain)`. -/
structure Codecs where
  unmarshalVMI : Bytes → Option Annotations
  unmarshalDomain : Bytes → Option Domain
  unmarshalArgs : String → Option (List String)
  marshalDomain : Domain → Option Bytes

/-- The ways a call to `OnDefineDomain` ends without a result: the three
`panic(err)` sites (lines 76, 86, 194) and a runtime panic inside the edits. -/
inductive CallFailure where
  | descriptorDecode
  | documentDecode
  | runtimePanic (f : Fault)
  | documentEncode
  deriving DecidableEq, Repr

/-- Source lines 68-202. -/
def OnDefineDomain (c : Codecs) (vmiJSON domainXML : Bytes) : Except CallFailure Bytes :=
  match c.unmarshalVMI vmiJSON with
  | none => .error .descriptorDecode
  | some annotations =>
    match c.unmarshalDomain domainXML with
    | none => .error .documentDecode
    | some domain =>
      match applyRules c.unmarshalArgs annotations domain with
      | .error f => .error (.runtimePanic f)
      | .ok domain =>
        match c.marshalDomain domain with
        | none => .error .documentEncode
        | some newDomainXML => .ok newDomainXML

/-! ## Observations on a document -/

/-- The `/os/smbios` node, when there is one. -/
def Domain.smbios (d : Domain) : Option DomainSMBios := d.OS.bind fun os => os.SMBios

/-- The list `/devices/video`, when `/devices` is there. -/
def Domain.videos (d : Domain) : Option (List DomainVideo) := d.Devices.map fun ds => ds.Videos

/-- The list `/devices/graphics`, when `/devices` is there. -/
def Domain.graphics (d : Domain) : Option (List DomainGraphic) := d.Devices.map fun ds => ds.Graphics

/-- The list `/devices/hostdev`, when `/devices` is there. -/
def Domain.hostdevs (d : Domain) : Option (List DomainHostdev) := d.Devices.map fun ds => ds.Hostdevs

/-- The base-board records of `/sysinfo`; none when `/sysinfo` is absent. -/
def Domain.baseBoards (d : Domain) : List DomainSysInfoBaseBoard :=
  match d.SysInfo with
  | none => []
  | some s => s.BaseBoard

/-- The arguments of the `qemu:commandline` block; none when the block is absent. -/
def Domain.qemuArgs (d : Domain) : List DomainQEMUCommandlineArg :=
  match d.QEMUCommandline with
  | none => []
  | some c => c.Args

/-- The host device the vGPU edit builds for the UUID `u` (source lines 141-165). -/
def vgpuHostdev (u : String) : DomainHostdev :=
  { Managed := "no"
    SubsysMDev := some
      { Model := "vfio-pci", Display := "on", Source := some { Address := some { UUID := u } } }
    Address := some
      { PCI := some { Domain := some 0, Bus := some 0, Slot := some 5, Function := some 0 } } }

/-- The video list after the model edit: a fresh device when the list is empty,
otherwise the first device with its model type replaced. -/
def setFirstModel (v : String) : List DomainVideo → List DomainVideo
  | [] => [{ Model := { Type_ := v } }]
  | v0 :: vs => { v0 with Model := { v0.Model with Type_ := v } } :: vs

/-- The annotation key that gates an edit. -/
def Rule.key : Rule → String
  | .baseBoard => baseBoardManufacturerAnnotation
  | .videoModel => videoModelAnnotation
  | .eglHeadless => eglHeadlessAnnotation
  | .vgpu => vgpuAnnotation
  | .qemuArgs => qemuArgsAnnotation

/-- The fields of `/os` other than `smbios`, when `/os` is there. -/
def Domain.osRest (d : Domain) : Option Unmodelled := d.OS.map fun os => os.rest

/-- The sections of `/sysinfo` other than the type and the base boards; none
when `/sysinfo` is absent. -/
def Domain.sysInfoRest (d : Domain) : Unmodelled :=
  match d.SysInfo with
  | none => []
  | some s => s.rest

/-- The device lists of `/devices` other than videos, graphics and host devices,
when `/devices` is there. -/
def Domain.devicesRest (d : Domain) : Option Unmodelled := d.Devices.map fun ds => ds.rest

/-- The parts of the `qemu:commandline` block other than its arguments; none
when the block is absent. -/
def Domain.qemuRest (d : Domain) : Unmodelled :=
  match d.QEMUCommandline with
  | none => []
  | some c => c.rest

/-- The base-board record the base-board edit builds for the value `v`
(source lines 103-107). -/
def manufacturerBoard (v : String) : DomainSysInfoBaseBoard :=
  { Entry := [{ Name := "manufacturer", Value := v }] }

/-- The graphics record the headless edit builds (source lines 129-132). -/
def eglHeadlessGraphic : DomainGraphic := { EGLHeadless := some {} }

/-! ## The info service (source lines 47-64) -/

/-- `hooksInfo.HookPoint`: `Name string`, `Priority int32`. -/
structure HookPoint where
  Name : String
  Priority : Int
  deriving DecidableEq, Repr

/-- `hooksInfo.InfoResult`: `Name`, `Versions`, `HookPoints`. -/
structure InfoResult where
  Name : String
  Versions : List String
  HookPoints : List HookPoint
  deriving DecidableEq, Repr

/-- `hooksInfo.InfoParams`: the request, which carries nothing the handler reads. -/
structure InfoParams where
  body : Unmodelled := []
  deriving DecidableEq, Repr

/-- Modelled from the spec: the constant `hooksInfo.OnDefineDomainHookPointName`
of kubevirt's `pkg/hooks/info`, which is not under src/; the spec gives the
hook point of the service as `OnDefineDomain`. -/
def OnDefineDomainHookPointName : String := "OnDefineDomain"

/-- `type infoServer struct{}`: the receiver has no fields, so no state. -/
structure infoServer where
  deriving DecidableEq, Repr

/-- Source lines 49-64.  `Version` is the constant `hooksV1alpha1.Version` of
kubevirt's `pkg/hooks/v1alpha1` (not under src/), taken as a parameter; the Go
result `(*InfoResult, error)` is an `Except`, the handler returns `nil` as error.
The context argument and the log line are left out. -/
def infoServer.Info (_s : infoServer) (Version : String) (_params : InfoParams) :
    Except String InfoResult :=
  .ok
    { Name := hookName
      Versions := [Version]
      HookPoints := [{ Name := OnDefineDomainHookPointName, Priority := 0 }] }

/-! ## Concrete inputs used by the witnesses -/

/-- A decoder for the witnesses: it knows the JSON text `["-foo","-bar"]` and
rejects everything else.  (`json.Unmarshal` itself is a parameter of the model.) -/
def fooBarDecoder (s : String) : Option (List String) :=
  if s = "[\"-foo\",\"-bar\"]" then some ["-foo", "-bar"] else none

/-- All five keys present. -/
def allKeys : Annotations :=
  ((((Annotations.empty.insert baseBoardManufacturerAnnotation "Acme").insert
    videoModelAnnotation "virtio").insert eglHeadlessAnnotation "").insert
    vgpuAnnotation "11111111-2222-3333-4444-555555555555").insert
    qemuArgsAnnotation "[\"-foo\",\"-bar\"]"

/-- Codecs under which every descriptor payload decodes to the annotations `ann`,
every document payload decodes to `d`, and every document encodes. -/
def constCodecs (ann : Annotations) (d : Domain) : Codecs :=
  { unmarshalVMI := fun _ => some ann
    unmarshalDomain := fun _ => some d
    unmarshalArgs := fooBarDecoder
    marshalDomain := fun _ => some [] }

/-- A decoder for the witnesses: the JSON texts `[]` and `null` decode to no
strings (as `json.Unmarshal` into a `[]string` does), everything else is rejected. -/
def emptyListDecoder (s : String) : Option (List String) :=
  if s = "[]" ∨ s = "null" then some [] else none

/-! ## Basic facts about the edits -/

theorem bind_eq_ok {ε α β : Type} (x : Except ε α) (f : α → Except ε β) (b : β) :
    (x >>= f) = .ok b ↔ ∃ a, x = .ok a ∧ f a = .ok b := by
  cases x with
  | error e => simp [bind, Except.bind]
  | ok a => simp [bind, Except.bind]

theorem baseBoardRule_absent (ann : Annotations) (d : Domain)
    (h : ann baseBoardManufacturerAnnotation = none) : baseBoardRule ann d = .ok d := by
  simp [baseBoardRule, h]

theorem baseBoardRule_nil (ann : Annotations) (d : Domain) (v : String)
    (h : ann baseBoardManufacturerAnnotation = some v) (hos : d.OS = none) :
    baseBoardRule ann d = .error .nilPointerDereference := by
  simp [baseBoardRule, h, hos]

theorem baseBoardRule_present (ann : Annotations) (d : Domain) (v : String) (os : DomainOS)
    (h : ann baseBoardManufacturerAnnotation = some v) (hos : d.OS = some os) :
    baseBoardRule ann d = .ok { d with
      OS := some { os with SMBios := some { Mode := "sysinfo" } }
      SysInfo := some
        { Type_ := "smbios"
          BaseBoard := d.baseBoards ++ [{ Entry := [{ Name := "manufacturer", Value := v }] }]
          rest := match d.SysInfo with
            | none => []
            | some s => s.rest } } := by
  cases hs : d.SysInfo <;> simp [baseBoardRule, h, hos, hs, Domain.baseBoards]

theorem videoModelRule_absent (ann : Annotations) (d : Domain)
    (h : ann videoModelAnnotation = none) : videoModelRule ann d = .ok d := by
  simp [videoModelRule, h]

theorem videoModelRule_nil (ann : Annotations) (d : Domain) (v : String)
    (h : ann videoModelAnnotation = some v) (hds : d.Devices = none) :
    videoModelRule ann d = .error .nilPointerDereference := by
  simp [videoModelRule, h, hds]

theorem videoModelRule_present (ann : Annotations) (d : Domain) (v : String)
    (ds : DomainDeviceList) (h : ann videoModelAnnotation = some v) (hds : d.Devices = some ds) :
    videoModelRule ann d = .ok { d with
      Devices := some { ds with
        Videos := match ds.Videos with
          | [] => [{ Model := { Type_ := v } }]
          | v0 :: vs => { v0 with Model := { v0.Model with Type_ := v } } :: vs } } := by
  cases hv : ds.Videos <;> simp [videoModelRule, h, hds, hv]

theorem eglHeadlessRule_absent (ann : Annotations) (d : Domain)
    (h : ann eglHeadlessAnnotation = none) : eglHeadlessRule ann d = .ok d := by
  simp [eglHeadlessRule, h]

theorem eglHeadlessRule_nil (ann : Annotations) (d : Domain) (v : String)
    (h : ann eglHeadlessAnnotation = some v) (hds : d.Devices = none) :
    eglHeadlessRule ann d = .error .nilPointerDereference := by
  simp [eglHeadlessRule, h, hds]

theorem eglHeadlessRule_present (ann : Annotations) (d : Domain) (v : String)
    (ds : DomainDeviceList) (h : ann eglHeadlessAnnotation = some v) (hds : d.Devices = some ds) :
    eglHeadlessRule ann d = .ok { d with
      Devices := some { ds with Graphics := ds.Graphics ++ [{ EGLHeadless := some {} }] } } := by
  simp [eglHeadlessRule, h, hds]

theorem vgpuRule_absent (ann : Annotations) (d : Domain)
    (h : ann vgpuAnnotation = none) : vgpuRule ann d = .ok d := by
  simp [vgpuRule, h]

theorem vgpuRule_nil (ann : Annotations) (d : Domain) (v : String)
    (h : ann vgpuAnnotation = some v) (hds : d.Devices = none) :
    vgpuRule ann d = .error .nilPointerDereference := by
  simp [vgpuRule, h, hds]

theorem vgpuRule_present (ann : Annotations) (d : Domain) (v : String)
    (ds : DomainDeviceList) (h : ann vgpuAnnotation = some v) (hds : d.Devices = some ds) :
    vgpuRule ann d = .ok { d with
      Devices := some { ds with
        Hostdevs := ds.Hostdevs ++
          [{ Managed := "no"
             SubsysMDev := some
               { Model := "vfio-pci", Display := "on", Source := some { Address := some { UUID := v } } }
             Address := some
               { PCI := some { Domain := some 0, Bus := some 0, Slot := some 5, Function := some 0 } } }] } } := by
  simp [vgpuRule, h, hds]

theorem appendArgs_eq (args : List DomainQEMUCommandlineArg) (l : List String) :
    appendArgs args l = args ++ l.map fun s => { Value := s } := by
  induction l generalizing args with
  | nil => simp [appendArgs]
  | cons s l ih => simp [appendArgs, ih]

theorem qemuArgsRule_absent (u : String → Option (List String)) (ann : Annotations) (d : Domain)
    (h : ann qemuArgsAnnotation = none) : qemuArgsRule u ann d = .ok d := by
  simp [qemuArgsRule, h]

theorem qemuArgsRule_malformed (u : String → Option (List String)) (ann : Annotations)
    (d : Domain) (v : String) (h : ann qemuArgsAnnotation = some v) (hu : u v = none) :
    qemuArgsRule u ann d = .ok d := by
  simp [qemuArgsRule, h, hu]

theorem qemuArgsRule_decoded (u : String → Option (List String)) (ann : Annotations)
    (d : Domain) (v : String) (l : List String)
    (h : ann qemuArgsAnnotation = some v) (hu : u v = some l) :
    qemuArgsRule u ann d = .ok { d with
      QEMUCommandline := some
        { Args := d.qemuArgs ++ l.map fun s => { Value := s }
          rest := match d.QEMUCommandline with
            | none => []
            | some c => c.rest } } := by
  cases hc : d.QEMUCommandline <;> simp [qemuArgsRule, h, hu, hc, Domain.qemuArgs, appendArgs_eq]

/-! ## What each edit leaves alone -/

theorem baseBoardRule_frame (ann : Annotations) (d d' : Domain)
    (h : baseBoardRule ann d = .ok d') :
    d'.Devices = d.Devices ∧ d'.QEMUCommandline = d.QEMUCommandline ∧ d'.rest = d.rest ∧
      d'.OS.isSome = d.OS.isSome := by
  cases hk : ann baseBoardManufacturerAnnotation with
  | none => rw [baseBoardRule_absent ann d hk] at h; cases h; simp
  | some v =>
    cases hos : d.OS with
    | none => rw [baseBoardRule_nil ann d v hk hos] at h; cases h
    | some os => rw [baseBoardRule_present ann d v os hk hos] at h; cases h; simp

theorem videoModelRule_frame (ann : Annotations) (d d' : Domain)
    (h : videoModelRule ann d = .ok d') :
    d'.OS = d.OS ∧ d'.SysInfo = d.SysInfo ∧ d'.QEMUCommandline = d.QEMUCommandline ∧
      d'.rest = d.rest ∧ d'.graphics = d.graphics ∧ d'.hostdevs = d.hostdevs ∧
      d'.Devices.isSome = d.Devices.isSome := by
  cases hk : ann videoModelAnnotation with
  | none => rw [videoModelRule_absent ann d hk] at h; cases h; simp
  | some v =>
    cases hds : d.Devices with
    | none => rw [videoModelRule_nil ann d v hk hds] at h; cases h
    | some ds =>
      rw [videoModelRule_present ann d v ds hk hds] at h
      cases h; simp [Domain.graphics, Domain.hostdevs, hds]

theorem eglHeadlessRule_frame (ann : Annotations) (d d' : Domain)
    (h : eglHeadlessRule ann d = .ok d') :
    d'.OS = d.OS ∧ d'.SysInfo = d.SysInfo ∧ d'.QEMUCommandline = d.QEMUCommandline ∧
      d'.rest = d.rest ∧ d'.videos = d.videos ∧ d'.hostdevs = d.hostdevs ∧
      d'.Devices.isSome = d.Devices.isSome := by
  cases hk : ann eglHeadlessAnnotation with
  | none => rw [eglHeadlessRule_absent ann d hk] at h; cases h; simp
  | some v =>
    cases hds : d.Devices with
    | none => rw [eglHeadlessRule_nil ann d v hk hds] at h; cases h
    | some ds =>
      rw [eglHeadlessRule_present ann d v ds hk hds] at h
      cases h; simp [Domain.videos, Domain.hostdevs, hds]

theorem vgpuRule_frame (ann : Annotations) (d d' : Domain)
    (h : vgpuRule ann d = .ok d') :
    d'.OS = d.OS ∧ d'.SysInfo = d.SysInfo ∧ d'.QEMUCommandline = d.QEMUCommandline ∧
      d'.rest = d.rest ∧ d'.videos = d.videos ∧ d'.graphics = d.graphics ∧
      d'.Devices.isSome = d.Devices.isSome := by
  cases hk : ann vgpuAnnotation with
  | none => rw [vgpuRule_absent ann d hk] at h; cases h; simp
  | some v =>
    cases hds : d.Devices with
    | none => rw [vgpuRule_nil ann d v hk hds] at h; cases h
    | some ds =>
      rw [vgpuRule_present ann d v ds hk hds] at h
      cases h; simp [Domain.videos, Domain.graphics, hds]

theorem qemuArgsRule_frame (u : String → Option (List String)) (ann : Annotations)
    (d d' : Domain) (h : qemuArgsRule u ann d = .ok d') :
    d'.OS = d.OS ∧ d'.SysInfo = d.SysInfo ∧ d'.Devices = d.Devices ∧ d'.rest = d.rest := by
  cases hk : ann qemuArgsAnnotation with
  | none => rw [qemuArgsRule_absent u ann d hk] at h; cases h; simp
  | some v =>
    cases hu : u v with
    | none => rw [qemuArgsRule_malformed u ann d v hk hu] at h; cases h; simp
    | some l => rw [qemuArgsRule_decoded u ann d v l hk hu] at h; cases h; simp

/-- A successful run of the sequence is a chain of five successful edits. -/
theorem applyRules_ok_iff (u : String → Option (List String)) (ann : Annotations)
    (d d' : Domain) :
    applyRules u ann d = .ok d' ↔
      ∃ d1 d2 d3 d4, baseBoardRule ann d = .ok d1 ∧ videoModelRule ann d1 = .ok d2 ∧
        eglHeadlessRule ann d2 = .ok d3 ∧ vgpuRule ann d3 = .ok d4 ∧
        qemuArgsRule u ann d4 = .ok d' := by
  unfold applyRules
  simp only [bind_eq_ok]
  constructor
  · rintro ⟨d1, h1, d2, h2, d3, h3, d4, h4, h5⟩
    exact ⟨d1, d2, d3, d4, h1, h2, h3, h4, h5⟩
  · rintro ⟨d1, d2, d3, d4, h1, h2, h3, h4, h5⟩
    exact ⟨d1, h1, d2, h2, d3, h3, d4, h4, h5⟩

/-- The sequence completes when the nodes its edits write through are there. -/
theorem applyRules_ok_of_nodes (u : String → Option (List String)) (ann : Annotations)
    (d : Domain)
    (hos : ann baseBoardManufacturerAnnotation ≠ none → d.OS ≠ none)
    (hds : (ann videoModelAnnotation ≠ none ∨ ann eglHeadlessAnnotation ≠ none ∨
      ann vgpuAnnotation ≠ none) → d.Devices ≠ none) :
    ∃ d', applyRules u ann d = .ok d' := by
  have e1 : ∃ d1, baseBoardRule ann d = .ok d1 := by
    cases hk : ann baseBoardManufacturerAnnotation with
    | none => exact ⟨_, baseBoardRule_absent ann d hk⟩
    | some v =>
      cases ho : d.OS with
      | none => exact absurd ho (hos (by simp [hk]))
      | some os => exact ⟨_, baseBoardRule_present ann d v os hk ho⟩
  obtain ⟨d1, h1⟩ := e1
  have f1 := baseBoardRule_frame ann d d1 h1
  have e2 : ∃ d2, videoModelRule ann d1 = .ok d2 := by
    cases hk : ann videoModelAnnotation with
    | none => exact ⟨_, videoModelRule_absent ann d1 hk⟩
    | some v =>
      cases ho : d1.Devices with
      | none => rw [f1.1] at ho; exact absurd ho (hds (by simp [hk]))
      | some ds => exact ⟨_, videoModelRule_present ann d1 v ds hk ho⟩
  obtain ⟨d2, h2⟩ := e2
  have f2 := videoModelRule_frame ann d1 d2 h2
  have e3 : ∃ d3, eglHeadlessRule ann d2 = .ok d3 := by
    cases hk : ann eglHeadlessAnnotation with
    | none => exact ⟨_, eglHeadlessRule_absent ann d2 hk⟩
    | some v =>
      cases ho : d2.Devices with
      | none =>
        have hn : d.Devices = none := by
          have := f2.2.2.2.2.2.2; rw [ho, f1.1] at this
          cases hd : d.Devices with
          | none => rfl
          | some x => rw [hd] at this; simp at this
        exact absurd hn (hds (by simp [hk]))
      | some ds => exact ⟨_, eglHeadlessRule_present ann d2 v ds hk ho⟩
  obtain ⟨d3, h3⟩ := e3
  have f3 := eglHeadlessRule_frame ann d2 d3 h3
  have e4 : ∃ d4, vgpuRule ann d3 = .ok d4 := by
    cases hk : ann vgpuAnnotation with
    | none => exact ⟨_, vgpuRule_absent ann d3 hk⟩
    | some v =>
      cases ho : d3.Devices with
      | none =>
        have hn : d.Devices = none := by
          have h32 := f3.2.2.2.2.2.2
          have h21 := f2.2.2.2.2.2.2
          rw [ho] at h32; rw [← h32, f1.1] at h21
          cases hd : d.Devices with
          | none => rfl
          | some x => rw [hd] at h21; simp at h21
        exact absurd hn (hds (by simp [hk]))
      | some ds => exact ⟨_, vgpuRule_present ann d3 v ds hk ho⟩
  obtain ⟨d4, h4⟩ := e4
  have e5 : ∃ d5, qemuArgsRule u ann d4 = .ok d5 := by
    cases hk : ann qemuArgsAnnotation with
    | none => exact ⟨_, qemuArgsRule_absent u ann d4 hk⟩
    | some v =>
      cases hu : u v with
      | none => exact ⟨_, qemuArgsRule_malformed u ann d4 v hk hu⟩
      | some l => exact ⟨_, qemuArgsRule_decoded u ann d4 v l hk hu⟩
  obtain ⟨d5, h5⟩ := e5
  exact ⟨d5, (applyRules_ok_iff u ann d d5).2 ⟨d1, d2, d3, d4, h1, h2, h3, h4, h5⟩⟩

/-- C1. No-op when a key is absent: whenever the rule sequence of `OnDefineDomain`
produces a document, each rule whose key is missing from the annotation map has
left its subtree as it was (`/os/smbios` and `/sysinfo` for the base-board key,
the video list for the model key, the graphics list for the eglHeadless key, the
host-device list for the vgpu key, the `qemu:commandline` block for the args
key), whatever other keys are present; with none of the five keys present the
sequence returns the input document itself; and the sequence does produce a
document whenever the nodes that the present keys write through exist. -/
theorem C1_noop_when_key_absent (u : String → Option (List String)) (ann : Annotations)
    (d : Domain) :
    (∀ d', applyRules u ann d = .ok d' →
      (ann baseBoardManufacturerAnnotation = none →
        d'.smbios = d.smbios ∧ d'.SysInfo = d.SysInfo) ∧
      (ann videoModelAnnotation = none → d'.videos = d.videos) ∧
      (ann eglHeadlessAnnotation = none → d'.graphics = d.graphics) ∧
      (ann vgpuAnnotation = none → d'.hostdevs = d.hostdevs) ∧
      (ann qemuArgsAnnotation = none → d'.QEMUCommandline = d.QEMUCommandline)) ∧
    (ann baseBoardManufacturerAnnotation = none → ann videoModelAnnotation = none →
      ann eglHeadlessAnnotation = none → ann vgpuAnnotation = none →
      ann qemuArgsAnnotation = none → applyRules u ann d = .ok d) ∧
    ((ann baseBoardManufacturerAnnotation ≠ none → d.OS ≠ none) →
      ((ann videoModelAnnotation ≠ none ∨ ann eglHeadlessAnnotation ≠ none ∨
        ann vgpuAnnotation ≠ none) → d.Devices ≠ none) →
      ∃ d', applyRules u ann d = .ok d') := by
  refine ⟨?_, ?_, applyRules_ok_of_nodes u ann d⟩
  · intro d' h
    obtain ⟨d1, d2, d3, d4, h1, h2, h3, h4, h5⟩ := (applyRules_ok_iff u ann d d').1 h
    have f1 := baseBoardRule_frame ann d d1 h1
    have f2 := videoModelRule_frame ann d1 d2 h2
    have f3 := eglHeadlessRule_frame ann d2 d3 h3
    have f4 := vgpuRule_frame ann d3 d4 h4
    have f5 := qemuArgsRule_frame u ann d4 d' h5
    have hdev1 : d1.Devices = d.Devices := f1.1
    have hdev5 : d'.Devices = d4.Devices := f5.2.2.1
    refine ⟨?_, ?_, ?_, ?_, ?_⟩
    · intro hk
      rw [baseBoardRule_absent ann d hk] at h1
      cases h1
      have hOS : d'.OS = d.OS := by rw [f5.1, f4.1, f3.1, f2.1]
      have hSI : d'.SysInfo = d.SysInfo := by rw [f5.2.1, f4.2.1, f3.2.1, f2.2.1]
      exact ⟨by simp [Domain.smbios, hOS], hSI⟩
    · intro hk
      rw [videoModelRule_absent ann d1 hk] at h2
      cases h2
      have e5 : d'.videos = d4.videos := by simp [Domain.videos, hdev5]
      have e1 : d1.videos = d.videos := by simp [Domain.videos, hdev1]
      rw [e5, f4.2.2.2.2.1, f3.2.2.2.2.1, e1]
    · intro hk
      rw [eglHeadlessRule_absent ann d2 hk] at h3
      cases h3
      have e5 : d'.graphics = d4.graphics := by simp [Domain.graphics, hdev5]
      have e1 : d1.graphics = d.graphics := by simp [Domain.graphics, hdev1]
      rw [e5, f4.2.2.2.2.2.1, f2.2.2.2.2.1, e1]
    · intro hk
      rw [vgpuRule_absent ann d3 hk] at h4
      cases h4
      have e5 : d'.hostdevs = d3.hostdevs := by simp [Domain.hostdevs, hdev5]
      have e1 : d1.hostdevs = d.hostdevs := by simp [Domain.hostdevs, hdev1]
      rw [e5, f3.2.2.2.2.2.1, f2.2.2.2.2.2.1, e1]
    · intro hk
      rw [qemuArgsRule_absent u ann d4 hk] at h5
      cases h5
      rw [f4.2.2.1, f3.2.2.1, f2.2.2.1, f1.2.1]
  · intro hb hv he hg hq
    simp [applyRules, baseBoardRule_absent ann d hb, videoModelRule_absent ann d hv,
      eglHeadlessRule_absent ann d he, vgpuRule_absent ann d hg,
      qemuArgsRule_absent u ann d hq, bind, Except.bind]

/-- C1 at a concrete input: only the vgpu key is present and `/devices` exists
with one video device; the sequence produces a document whose `/os/smbios`,
`/sysinfo`, video list, graphics list and `qemu:commandline` block are those of
the input. -/
theorem C1_noop_when_key_absent_witness :
    ∃ d', applyRules (fun _ => none) (Annotations.empty.insert vgpuAnnotation "u")
        { Devices := some { Videos := [{}] } } = .ok d' ∧
      d'.smbios = none ∧ d'.SysInfo = none ∧ d'.videos = some [{}] ∧
      d'.graphics = some [] ∧ d'.QEMUCommandline = none := by
  have h := C1_noop_when_key_absent (fun _ => none)
    (Annotations.empty.insert vgpuAnnotation "u") { Devices := some { Videos := [{}] } }
  obtain ⟨d', hd'⟩ := h.2.2 (fun hk => absurd rfl hk) (fun _ => by simp)
  obtain ⟨hb, hv, he, _, hq⟩ := h.1 d' hd'
  exact ⟨d', hd', (hb rfl).1, (hb rfl).2, hv rfl, he rfl, hq rfl⟩

/-! ## Base-board rule (C2) -/

/-- Postcondition of the base-board edit on a document that has an `/os` node. -/
theorem baseBoardRule_post (ann : Annotations) (d : Domain) (v : String) (os : DomainOS)
    (h : ann baseBoardManufacturerAnnotation = some v) (hos : d.OS = some os) :
    ∃ d' s, baseBoardRule ann d = .ok d' ∧ d'.smbios = some { Mode := "sysinfo" } ∧
      d'.SysInfo = some s ∧ s.Type_ = "smbios" ∧
      s.BaseBoard = d.baseBoards ++ [{ Entry := [{ Name := "manufacturer", Value := v }] }] :=
  ⟨_, _, baseBoardRule_present ann d v os h hos, by simp [Domain.smbios], rfl, rfl, rfl⟩

/-- C2. The base-board edit on the initially empty document (no `/os` node) with
`baseBoardManufacturer = "Acme"`: the write `domain.OS.SMBios = ...` goes through
the nil pointer `domain.OS`, so the edit, and with it the whole rule sequence,
ends in a nil-pointer panic instead of producing the document with
`smbios mode = "sysinfo"` and one base-board record. -/
theorem C2_baseBoard_empty_document_panics :
    baseBoardRule (Annotations.empty.insert baseBoardManufacturerAnnotation "Acme") {} =
      .error .nilPointerDereference ∧
    ∀ u, applyRules u (Annotations.empty.insert baseBoardManufacturerAnnotation "Acme") {} =
      .error .nilPointerDereference :=
  ⟨rfl, fun _ => rfl⟩

/-! ## Video-model rule (C3) -/

/-- Postcondition of the video-model edit on a document that has a `/devices` node. -/
theorem videoModelRule_post (ann : Annotations) (d : Domain) (v : String)
    (ds : DomainDeviceList) (h : ann videoModelAnnotation = some v) (hds : d.Devices = some ds) :
    ∃ d' vs, videoModelRule ann d = .ok d' ∧ d'.videos = some vs ∧
      (ds.Videos = [] → vs = [{ Model := { Type_ := v } }]) ∧
      (∀ v0 rest, ds.Videos = v0 :: rest →
        vs = { v0 with Model := { v0.Model with Type_ := v } } :: rest) := by
  refine ⟨_, _, videoModelRule_present ann d v ds h hds, rfl, ?_, ?_⟩
  · intro he; simp [he]
  · intro v0 rest he; simp [he]

/-- C3. The video-model edit on a document without a `/devices` node (so with no
video device) and `model = "virtio"`: `len(domain.Devices.Videos)` reads through
the nil pointer `domain.Devices`, so the edit and the whole rule sequence end in
a nil-pointer panic instead of producing a one-element video list. -/
theorem C3_videoModel_no_devices_panics :
    videoModelRule (Annotations.empty.insert videoModelAnnotation "virtio") { OS := some {} } =
      .error .nilPointerDereference ∧
    ∀ u, applyRules u (Annotations.empty.insert videoModelAnnotation "virtio") { OS := some {} } =
      .error .nilPointerDereference :=
  ⟨rfl, fun _ => rfl⟩

/-! ## vGPU rule (C4) -/

/-- Postcondition of the vGPU edit on a document that has a `/devices` node. -/
theorem vgpuRule_post (ann : Annotations) (d : Domain) (v : String)
    (ds : DomainDeviceList) (h : ann vgpuAnnotation = some v) (hds : d.Devices = some ds) :
    ∃ d', vgpuRule ann d = .ok d' ∧ d'.hostdevs = some (ds.Hostdevs ++ [vgpuHostdev v]) :=
  ⟨_, vgpuRule_present ann d v ds h hds, rfl⟩

/-- C4. The vGPU edit on a document without a `/devices` node: the append to
`domain.Devices.Hostdevs` goes through the nil pointer `domain.Devices`, so the
edit and the whole rule sequence end in a nil-pointer panic instead of producing
a host-device list with the new record. -/
theorem C4_vgpu_no_devices_panics :
    vgpuRule (Annotations.empty.insert vgpuAnnotation "11111111-2222-3333-4444-555555555555")
      { OS := some {} } = .error .nilPointerDereference ∧
    ∀ u, applyRules u
      (Annotations.empty.insert vgpuAnnotation "11111111-2222-3333-4444-555555555555")
      { OS := some {} } = .error .nilPointerDereference :=
  ⟨rfl, fun _ => rfl⟩

/-! ## Extra-arguments rule (C5, C6) -/

/-- The first four edits never touch the `qemu:commandline` block. -/
theorem applyRules_qemu_chain (u : String → Option (List String)) (ann : Annotations)
    (d d' : Domain) (h : applyRules u ann d = .ok d') :
    ∃ d4, d4.QEMUCommandline = d.QEMUCommandline ∧ qemuArgsRule u ann d4 = .ok d' := by
  obtain ⟨d1, d2, d3, d4, h1, h2, h3, h4, h5⟩ := (applyRules_ok_iff u ann d d').1 h
  refine ⟨d4, ?_, h5⟩
  rw [(vgpuRule_frame ann d3 d4 h4).2.2.1, (eglHeadlessRule_frame ann d2 d3 h3).2.2.1,
    (videoModelRule_frame ann d1 d2 h2).2.2.1, (baseBoardRule_frame ann d d1 h1).2.1]

/-- C5. Extra-arguments rule on success: when the args key is present with a
value that decodes to the strings `l`, the edit always completes, its output has
a `qemu:commandline` block, and the block's argument list is the input list
(empty when the block was absent) followed by one record per string of `l`, in
order; the same holds of every document the whole rule sequence produces, and
the sequence does produce one when `/os` and `/devices` exist. -/
theorem C5_qemuArgs_appended (u : String → Option (List String)) (ann : Annotations)
    (d : Domain) (v : String) (l : List String)
    (h : ann qemuArgsAnnotation = some v) (hu : u v = some l) :
    (∃ d' c, qemuArgsRule u ann d = .ok d' ∧ d'.QEMUCommandline = some c ∧
      c.Args = d.qemuArgs ++ l.map fun s => { Value := s }) ∧
    (∀ d', applyRules u ann d = .ok d' →
      ∃ c, d'.QEMUCommandline = some c ∧ c.Args = d.qemuArgs ++ l.map fun s => { Value := s }) ∧
    (d.OS ≠ none → d.Devices ≠ none → ∃ d' c, applyRules u ann d = .ok d' ∧
      d'.QEMUCommandline = some c ∧ c.Args = d.qemuArgs ++ l.map fun s => { Value := s }) := by
  have key : ∀ d', applyRules u ann d = .ok d' →
      ∃ c, d'.QEMUCommandline = some c ∧
        c.Args = d.qemuArgs ++ l.map fun s => { Value := s } := by
    intro d' hd'
    obtain ⟨d4, hq, h5⟩ := applyRules_qemu_chain u ann d d' hd'
    rw [qemuArgsRule_decoded u ann d4 v l h hu] at h5
    cases h5
    exact ⟨_, rfl, by simp [Domain.qemuArgs, hq]⟩
  refine ⟨⟨_, _, qemuArgsRule_decoded u ann d v l h hu, rfl, rfl⟩, key, ?_⟩
  intro hos hds
  obtain ⟨d', hd'⟩ := applyRules_ok_of_nodes u ann d (fun _ => hos) (fun _ => hds)
  obtain ⟨c, hc⟩ := key d' hd'
  exact ⟨d', c, hd', hc⟩

/-- C5 at the input of the specification: the value `["-foo","-bar"]` and a
document without a `qemu:commandline` block give a block with exactly the two
arguments `-foo`, `-bar`, in that order. -/
theorem C5_qemuArgs_appended_witness :
    ∃ d' c, qemuArgsRule fooBarDecoder
        (Annotations.empty.insert qemuArgsAnnotation "[\"-foo\",\"-bar\"]") {} = .ok d' ∧
      d'.QEMUCommandline = some c ∧ c.Args = [{ Value := "-foo" }, { Value := "-bar" }] :=
  (C5_qemuArgs_appended fooBarDecoder
    (Annotations.empty.insert qemuArgsAnnotation "[\"-foo\",\"-bar\"]") {}
    "[\"-foo\",\"-bar\"]" ["-foo", "-bar"] rfl rfl).1

theorem erase_other (ann : Annotations) (k k' : String) (h : k' ≠ k) :
    (ann.erase k) k' = ann k' := by
  simp [Annotations.erase, h]

theorem erase_self (ann : Annotations) (k : String) : (ann.erase k) k = none := by
  simp [Annotations.erase]

theorem baseBoardRule_congr (ann ann' : Annotations) (d : Domain)
    (h : ann baseBoardManufacturerAnnotation = ann' baseBoardManufacturerAnnotation) :
    baseBoardRule ann d = baseBoardRule ann' d := by
  simp [baseBoardRule, h]

theorem videoModelRule_congr (ann ann' : Annotations) (d : Domain)
    (h : ann videoModelAnnotation = ann' videoModelAnnotation) :
    videoModelRule ann d = videoModelRule ann' d := by
  simp [videoModelRule, h]

theorem eglHeadlessRule_congr (ann ann' : Annotations) (d : Domain)
    (h : ann eglHeadlessAnnotation = ann' eglHeadlessAnnotation) :
    eglHeadlessRule ann d = eglHeadlessRule ann' d := by
  simp [eglHeadlessRule, h]

theorem vgpuRule_congr (ann ann' : Annotations) (d : Domain)
    (h : ann vgpuAnnotation = ann' vgpuAnnotation) :
    vgpuRule ann d = vgpuRule ann' d := by
  simp [vgpuRule, h]

theorem qemuArgsRule_congr (u : String → Option (List String)) (ann ann' : Annotations)
    (d : Domain) (h : ann qemuArgsAnnotation = ann' qemuArgsAnnotation) :
    qemuArgsRule u ann d = qemuArgsRule u ann' d := by
  simp [qemuArgsRule, h]

/-- A malformed args value and a missing args key give the same run of the sequence. -/
theorem applyRules_malformed_eq_erase (u : String → Option (List String)) (ann : Annotations)
    (d : Domain) (v : String) (h : ann qemuArgsAnnotation = some v) (hu : u v = none) :
    applyRules u ann d = applyRules u (ann.erase qemuArgsAnnotation) d := by
  have e1 := fun x => baseBoardRule_congr (ann.erase qemuArgsAnnotation) ann x
    (erase_other ann _ _ (by decide))
  have e2 := fun x => videoModelRule_congr (ann.erase qemuArgsAnnotation) ann x
    (erase_other ann _ _ (by decide))
  have e3 := fun x => eglHeadlessRule_congr (ann.erase qemuArgsAnnotation) ann x
    (erase_other ann _ _ (by decide))
  have e4 := fun x => vgpuRule_congr (ann.erase qemuArgsAnnotation) ann x
    (erase_other ann _ _ (by decide))
  have e5 : ∀ x, qemuArgsRule u (ann.erase qemuArgsAnnotation) x = qemuArgsRule u ann x := by
    intro x
    rw [qemuArgsRule_absent u _ x (erase_self ann _), qemuArgsRule_malformed u ann x v h hu]
  simp only [applyRules, e1, e2, e3, e4, e5]

/-- What a malformed extra-arguments value does: when the args key is present
with a value that does not decode, the args edit returns its input document
unchanged; the rule sequence runs exactly as with the args key removed; every
document it produces has the `qemu:commandline` block of the input (an absent
block stays absent); `OnDefineDomain` returns exactly what it returns for a
descriptor with the same annotations minus the args key; and the call returns a
document whenever the nodes the other present keys write through exist and the
encoder is total. -/
theorem malformed_args_skipped (c : Codecs) (ann : Annotations) (d : Domain)
    (v : String) (h : ann qemuArgsAnnotation = some v) (hu : c.unmarshalArgs v = none) :
    qemuArgsRule c.unmarshalArgs ann d = .ok d ∧
    applyRules c.unmarshalArgs ann d =
      applyRules c.unmarshalArgs (ann.erase qemuArgsAnnotation) d ∧
    (∀ d', applyRules c.unmarshalArgs ann d = .ok d' →
      d'.QEMUCommandline = d.QEMUCommandline) ∧
    (∀ vmiJSON vmiJSON' domainXML, c.unmarshalVMI vmiJSON = some ann →
      c.unmarshalVMI vmiJSON' = some (ann.erase qemuArgsAnnotation) →
      c.unmarshalDomain domainXML = some d →
      OnDefineDomain c vmiJSON domainXML = OnDefineDomain c vmiJSON' domainXML) ∧
    (∀ vmiJSON domainXML, c.unmarshalVMI vmiJSON = some ann →
      c.unmarshalDomain domainXML = some d →
      (ann baseBoardManufacturerAnnotation ≠ none → d.OS ≠ none) →
      ((ann videoModelAnnotation ≠ none ∨ ann eglHeadlessAnnotation ≠ none ∨
        ann vgpuAnnotation ≠ none) → d.Devices ≠ none) →
      (∀ x, c.marshalDomain x ≠ none) →
      ∃ d' out, applyRules c.unmarshalArgs ann d = .ok d' ∧ c.marshalDomain d' = some out ∧
        OnDefineDomain c vmiJSON domainXML = .ok out) := by
  have heq := applyRules_malformed_eq_erase c.unmarshalArgs ann d v h hu
  refine ⟨qemuArgsRule_malformed _ ann d v h hu, heq, ?_, ?_, ?_⟩
  · intro d' hd'
    obtain ⟨d4, hq, h5⟩ := applyRules_qemu_chain _ ann d d' hd'
    rw [qemuArgsRule_malformed _ ann d4 v h hu] at h5
    cases h5
    exact hq
  · intro vmiJSON vmiJSON' domainXML h1 h2 h3
    simp only [OnDefineDomain, h1, h2, h3, heq]
  · intro vmiJSON domainXML h1 h2 hos hds hm
    obtain ⟨d', hd'⟩ := applyRules_ok_of_nodes c.unmarshalArgs ann d hos hds
    cases hout : c.marshalDomain d' with
    | none => exact absurd hout (hm d')
    | some out =>
      refine ⟨d', out, hd', hout, ?_⟩
      simp only [OnDefineDomain, h1, h2, hd', hout]

/-- The args value `oops` is not JSON and no other key is present: the edit
leaves the empty document as it is and the call returns the encoded document. -/
theorem malformed_args_skipped_example :
    ∃ d' out, applyRules fooBarDecoder (Annotations.empty.insert qemuArgsAnnotation "oops") {} =
        .ok d' ∧
      (constCodecs (Annotations.empty.insert qemuArgsAnnotation "oops") {}).marshalDomain d' =
        some out ∧
      OnDefineDomain (constCodecs (Annotations.empty.insert qemuArgsAnnotation "oops") {}) [] [] =
        .ok out :=
  (malformed_args_skipped (constCodecs (Annotations.empty.insert qemuArgsAnnotation "oops") {})
    (Annotations.empty.insert qemuArgsAnnotation "oops") {} "oops" rfl rfl).2.2.2.2 [] [] rfl rfl
    (fun h => absurd rfl h) (fun h => by rcases h with h | h | h <;> exact absurd rfl h)
    (fun _ h => by simp [constCodecs] at h)

/-- C6. A malformed extra-arguments value on a document without a `/devices`
node, with the video-model key present as well: the args value `oops` does not
decode, both payloads decode and the encoder accepts every document, yet
`OnDefineDomain` does not succeed: `len(domain.Devices.Videos)` (line 117) reads
through the nil `domain.Devices` and the call ends in a nil-pointer panic before
the args edit is reached, for every decoder of the args value; the same call
without the args key fails in the same way. -/
theorem C6_malformed_args_call_panics :
    fooBarDecoder "oops" = none ∧
    (∀ u, applyRules u
      ((Annotations.empty.insert videoModelAnnotation "virtio").insert qemuArgsAnnotation "oops")
      { OS := some {} } = .error .nilPointerDereference) ∧
    OnDefineDomain
      (constCodecs
        ((Annotations.empty.insert videoModelAnnotation "virtio").insert
          qemuArgsAnnotation "oops")
        { OS := some {} })
      [] [] = .error (.runtimePanic .nilPointerDereference) ∧
    OnDefineDomain
      (constCodecs (Annotations.empty.insert videoModelAnnotation "virtio") { OS := some {} })
      [] [] = .error (.runtimePanic .nilPointerDereference) :=
  ⟨rfl, fun _ => rfl, rfl, rfl⟩

/-! ## Headless-graphics rule (C7) -/

/-- Postcondition of the headless-graphics edit on a document that has a
`/devices` node: one record is appended, the same for every annotation value. -/
theorem eglHeadlessRule_post (ann : Annotations) (d : Domain) (v : String)
    (ds : DomainDeviceList) (h : ann eglHeadlessAnnotation = some v) (hds : d.Devices = some ds) :
    ∃ d', eglHeadlessRule ann d = .ok d' ∧
      d'.graphics = some (ds.Graphics ++ [{ EGLHeadless := some {} }]) :=
  ⟨_, eglHeadlessRule_present ann d v ds h hds, rfl⟩

/-- C7. The headless-graphics edit on a document without a `/devices` node: the
append to `domain.Devices.Graphics` goes through the nil pointer
`domain.Devices`, so the edit and the whole rule sequence end in a nil-pointer
panic instead of producing a graphics list one record longer. -/
theorem C7_eglHeadless_no_devices_panics :
    eglHeadlessRule (Annotations.empty.insert eglHeadlessAnnotation "") { OS := some {} } =
      .error .nilPointerDereference ∧
    ∀ u, applyRules u (Annotations.empty.insert eglHeadlessAnnotation "") { OS := some {} } =
      .error .nilPointerDereference :=
  ⟨rfl, fun _ => rfl⟩

/-! ## Failures of the call (C8) -/

/-- The call returns a document exactly when both payloads decode, the edits
complete and the result encodes. -/
theorem OnDefineDomain_ok_iff (c : Codecs) (vmiJSON domainXML out : Bytes) :
    OnDefineDomain c vmiJSON domainXML = .ok out ↔
      ∃ ann d d', c.unmarshalVMI vmiJSON = some ann ∧ c.unmarshalDomain domainXML = some d ∧
        applyRules c.unmarshalArgs ann d = .ok d' ∧ c.marshalDomain d' = some out := by
  cases h1 : c.unmarshalVMI vmiJSON with
  | none => simp [OnDefineDomain, h1]
  | some ann =>
    cases h2 : c.unmarshalDomain domainXML with
    | none => simp [OnDefineDomain, h1, h2]
    | some d =>
      cases h3 : applyRules c.unmarshalArgs ann d with
      | error f => simp [OnDefineDomain, h1, h2, h3]
      | ok d' =>
        cases h4 : c.marshalDomain d' with
        | none => simp [OnDefineDomain, h1, h2, h3, h4]
        | some b => simp [OnDefineDomain, h1, h2, h3, h4]

/-- The call fails exactly in four ways: the three decode and encode failures,
and a panic inside the edits. -/
theorem OnDefineDomain_error_iff (c : Codecs) (vmiJSON domainXML : Bytes) (e : CallFailure) :
    OnDefineDomain c vmiJSON domainXML = .error e ↔
      (c.unmarshalVMI vmiJSON = none ∧ e = .descriptorDecode) ∨
      (∃ ann, c.unmarshalVMI vmiJSON = some ann ∧ c.unmarshalDomain domainXML = none ∧
        e = .documentDecode) ∨
      (∃ ann d f, c.unmarshalVMI vmiJSON = some ann ∧ c.unmarshalDomain domainXML = some d ∧
        applyRules c.unmarshalArgs ann d = .error f ∧ e = .runtimePanic f) ∨
      (∃ ann d d', c.unmarshalVMI vmiJSON = some ann ∧ c.unmarshalDomain domainXML = some d ∧
        applyRules c.unmarshalArgs ann d = .ok d' ∧ c.marshalDomain d' = none ∧
        e = .documentEncode) := by
  cases h1 : c.unmarshalVMI vmiJSON with
  | none => simp [OnDefineDomain, h1, eq_comm]
  | some ann =>
    cases h2 : c.unmarshalDomain domainXML with
    | none => simp [OnDefineDomain, h1, h2, eq_comm]
    | some d =>
      cases h3 : applyRules c.unmarshalArgs ann d with
      | error f => simp [OnDefineDomain, h1, h2, h3, eq_comm]
      | ok d' =>
        cases h4 : c.marshalDomain d' with
        | none => simp [OnDefineDomain, h1, h2, h3, h4, eq_comm]
        | some b => simp [OnDefineDomain, h1, h2, h3, h4]

/-- C8. A call failure that is none of the three fatal errors: when the
descriptor decodes to the single annotation `baseBoardManufacturer = "Acme"` and
the document payload decodes to the empty document, `OnDefineDomain` fails with
the nil-pointer panic of the base-board edit, whatever the encoder would do; no
payload failed to decode and no mutated document was ever handed to the
encoder. -/
theorem C8_panic_outside_the_three_fatal_errors (c : Codecs) (vmiJSON domainXML : Bytes)
    (h1 : c.unmarshalVMI vmiJSON =
      some (Annotations.empty.insert baseBoardManufacturerAnnotation "Acme"))
    (h2 : c.unmarshalDomain domainXML = some {}) :
    OnDefineDomain c vmiJSON domainXML = .error (.runtimePanic .nilPointerDereference) ∧
    c.unmarshalVMI vmiJSON ≠ none ∧ c.unmarshalDomain domainXML ≠ none ∧
    ∀ d', applyRules c.unmarshalArgs
      (Annotations.empty.insert baseBoardManufacturerAnnotation "Acme") {} ≠ .ok d' := by
  have h3 : applyRules c.unmarshalArgs
      (Annotations.empty.insert baseBoardManufacturerAnnotation "Acme") {} =
      .error .nilPointerDereference := rfl
  refine ⟨?_, by simp [h1], by simp [h2], ?_⟩
  · simp only [OnDefineDomain, h1, h2, h3]
  · intro d' hd'
    rw [h3] at hd'
    cases hd'

/-- C8 at concrete codecs whose encoder accepts every document: the call still
fails, with the runtime panic. -/
theorem C8_panic_outside_the_three_fatal_errors_witness :
    OnDefineDomain
        (constCodecs (Annotations.empty.insert baseBoardManufacturerAnnotation "Acme") {})
        [] [] = .error (.runtimePanic .nilPointerDereference) :=
  (C8_panic_outside_the_three_fatal_errors
    (constCodecs (Annotations.empty.insert baseBoardManufacturerAnnotation "Acme") {})
    [] [] rfl rfl).1

/-! ## Order of the rules (C9) -/

theorem runRules_cons (u : String → Option (List String)) (ann : Annotations) (r : Rule)
    (rs : List Rule) (d : Domain) :
    runRules u ann (r :: rs) d = (r.run u ann d >>= runRules u ann rs) := by
  simp only [runRules, bind, Except.bind]
  cases r.run u ann d <;> rfl

theorem runRules_nil (u : String → Option (List String)) (ann : Annotations) (d : Domain) :
    runRules u ann [] d = .ok d := rfl

theorem bind_ok_right {ε α : Type} (x : Except ε α) : (x >>= fun a => Except.ok a) = x := by
  cases x <;> rfl

theorem applyRules_eq_runRules (u : String → Option (List String)) (ann : Annotations)
    (d : Domain) : applyRules u ann d = runRules u ann sourceOrder d := by
  have h5 : ∀ x, runRules u ann [Rule.qemuArgs] x = qemuArgsRule u ann x := by
    intro x
    rw [runRules_cons]
    exact bind_ok_right _
  simp only [sourceOrder, applyRules]
  rw [runRules_cons]
  congr 1; funext d1
  rw [runRules_cons]
  congr 1; funext d2
  rw [runRules_cons]
  congr 1; funext d3
  rw [runRules_cons]
  congr 1; funext d4
  exact (h5 d4).symm

theorem Rule.run_absent (u : String → Option (List String)) (ann : Annotations) (r : Rule)
    (h : ann r.key = none) (d : Domain) : r.run u ann d = .ok d := by
  cases r <;> simp only [Rule.key] at h <;> simp only [Rule.run]
  · exact baseBoardRule_absent ann d h
  · exact videoModelRule_absent ann d h
  · exact eglHeadlessRule_absent ann d h
  · exact vgpuRule_absent ann d h
  · exact qemuArgsRule_absent u ann d h

theorem comm_of_left_id {ε α : Type} (f g : α → Except ε α) (h : ∀ x, f x = .ok x) (a : α) :
    (f a >>= g) = (g a >>= f) := by
  rw [h a]
  cases hg : g a with
  | error e => simp [bind, Except.bind, hg]
  | ok b => simp [bind, Except.bind, hg, h b]



theorem videoModelRule_eq (ann : Annotations) (d : Domain) :
    videoModelRule ann d =
      match ann videoModelAnnotation with
      | none => .ok d
      | some v =>
        match d.Devices with
        | none => .error .nilPointerDereference
        | some ds => .ok { d with Devices := some { ds with Videos := setFirstModel v ds.Videos } } := by
  cases hk : ann videoModelAnnotation with
  | none => simp [videoModelRule, hk]
  | some v =>
    cases hds : d.Devices with
    | none => simp [videoModelRule, hk, hds]
    | some ds => cases hv : ds.Videos <;> simp [videoModelRule, hk, hds, hv, setFirstModel]

theorem Rule.run_comm (u : String → Option (List String)) (ann : Annotations)
    (r1 r2 : Rule) (d : Domain) :
    (r1.run u ann d >>= r2.run u ann) = (r2.run u ann d >>= r1.run u ann) := by
  cases h1 : ann r1.key with
  | none => exact comm_of_left_id _ _ (Rule.run_absent u ann r1 h1) d
  | some v1 =>
    cases h2 : ann r2.key with
    | none => exact (comm_of_left_id _ _ (Rule.run_absent u ann r2 h2) d).symm
    | some v2 =>
      obtain ⟨si, os, ds, qc, rest⟩ := d
      cases r1 <;> cases r2 <;> first
        | rfl
        | (simp only [Rule.key] at h1 h2
           cases os <;> cases ds <;> cases hu1 : u v1 <;> cases hu2 : u v2 <;>
           simp [Rule.run, baseBoardRule, videoModelRule_eq, eglHeadlessRule, vgpuRule,
             qemuArgsRule, bind, Except.bind, h1, h2, hu1, hu2])


theorem runRules_perm (u : String → Option (List String)) (ann : Annotations)
    {l1 l2 : List Rule} (h : l1.Perm l2) :
    ∀ d, runRules u ann l1 d = runRules u ann l2 d := by
  induction h with
  | nil => intro d; rfl
  | cons x _ ih =>
    intro d
    rw [runRules_cons, runRules_cons]
    congr 1
    funext d1
    exact ih d1
  | swap x y l =>
    intro d
    have hx : runRules u ann (x :: l) = fun a => x.run u ann a >>= runRules u ann l :=
      funext fun a => runRules_cons u ann x l a
    have hy : runRules u ann (y :: l) = fun a => y.run u ann a >>= runRules u ann l :=
      funext fun a => runRules_cons u ann y l a
    rw [runRules_cons, runRules_cons, hx, hy, ← bind_assoc, ← bind_assoc,
      Rule.run_comm u ann y x d]
  | trans _ _ ih1 ih2 => intro d; rw [ih1, ih2]

/-- C9. The five rules are order-insensitive: running them in any permutation of
the order of `OnDefineDomain` gives the same result as the order of the source
(the same document, or a panic in both), and any two rules commute. -/
theorem C9_rules_order_insensitive (u : String → Option (List String)) (ann : Annotations)
    (d : Domain) (rs : List Rule) (h : rs.Perm sourceOrder) :
    runRules u ann rs d = applyRules u ann d ∧
    ∀ (r1 r2 : Rule) (x : Domain),
      (r1.run u ann x >>= r2.run u ann) = (r2.run u ann x >>= r1.run u ann) := by
  refine ⟨?_, fun r1 r2 x => Rule.run_comm u ann r1 r2 x⟩
  rw [applyRules_eq_runRules]
  exact runRules_perm u ann h d

/-- C9 at a concrete input: all five keys present, the rules run in the reverse
of the source order on a document with `/os` and `/devices`. -/
theorem C9_rules_order_insensitive_witness :
    runRules fooBarDecoder allKeys [.qemuArgs, .vgpu, .eglHeadless, .videoModel, .baseBoard]
        { OS := some {}, Devices := some {} } =
      applyRules fooBarDecoder allKeys { OS := some {}, Devices := some {} } :=
  (C9_rules_order_insensitive fooBarDecoder allKeys { OS := some {}, Devices := some {} }
    [.qemuArgs, .vgpu, .eglHeadless, .videoModel, .baseBoard]
    (List.reverse_perm sourceOrder)).1

/-! ## Repeating the video-model rule (C10) -/

theorem setFirstModel_twice (v w : String) (l : List DomainVideo) :
    setFirstModel w (setFirstModel v l) = setFirstModel w l := by
  cases l <;> simp [setFirstModel]

theorem setFirstModel_length (v : String) (l : List DomainVideo) :
    (setFirstModel v l).length = if l = [] then 1 else l.length := by
  cases l <;> simp [setFirstModel]

theorem setFirstModel_head (v : String) (l : List DomainVideo) :
    (setFirstModel v l).head?.map (fun x => x.Model.Type_) = some v := by
  cases l <;> simp [setFirstModel]

/-- C10. The video-model rule is idempotent and overwriting: running it with the
value `v` and then with `w` gives exactly what one run with `w` gives (the same
document, or the panic of a missing `/devices` in both); twice the same value is
one run; and on a document with a `/devices` node both runs complete, the second
one leaves the list at the length the first one gave it (one, when the document
had one video device) and the first device has model type `w`. -/
theorem C10_videoModel_idempotent (ann1 ann2 : Annotations) (d : Domain) (v w : String)
    (h1 : ann1 videoModelAnnotation = some v) (h2 : ann2 videoModelAnnotation = some w) :
    (videoModelRule ann1 d >>= videoModelRule ann2) = videoModelRule ann2 d ∧
    (videoModelRule ann1 d >>= videoModelRule ann1) = videoModelRule ann1 d ∧
    (∀ ds, d.Devices = some ds →
      ∃ d1 d2 vs1 vs2, videoModelRule ann1 d = .ok d1 ∧ videoModelRule ann2 d1 = .ok d2 ∧
        videoModelRule ann2 d = .ok d2 ∧ d1.videos = some vs1 ∧ d2.videos = some vs2 ∧
        vs2.length = vs1.length ∧ (ds.Videos.length = 1 → vs2.length = 1) ∧
        vs2.head?.map (fun x => x.Model.Type_) = some w) := by
  have key : ∀ (a b : Annotations) (x y : String), a videoModelAnnotation = some x →
      b videoModelAnnotation = some y →
      (videoModelRule a d >>= videoModelRule b) = videoModelRule b d := by
    intro a b x y ha hb
    cases hds : d.Devices with
    | none => simp [videoModelRule_eq, ha, hb, hds, bind, Except.bind]
    | some ds => simp [videoModelRule_eq, ha, hb, hds, bind, Except.bind, setFirstModel_twice]
  refine ⟨key ann1 ann2 v w h1 h2, key ann1 ann1 v v h1 h1, ?_⟩
  intro ds hds
  refine ⟨{ d with Devices := some { ds with Videos := setFirstModel v ds.Videos } },
    { d with Devices := some { ds with Videos := setFirstModel w ds.Videos } },
    setFirstModel v ds.Videos, setFirstModel w ds.Videos, ?_, ?_, ?_, rfl, rfl, ?_, ?_, ?_⟩
  · simp [videoModelRule_eq, h1, hds]
  · simp [videoModelRule_eq, h2, setFirstModel_twice]
  · simp [videoModelRule_eq, h2, hds]
  · simp [setFirstModel_length]
  · intro hl
    have : ds.Videos ≠ [] := by intro e; simp [e] at hl
    simp [setFirstModel_length, this, hl]
  · exact setFirstModel_head w ds.Videos

/-- C10 at a concrete input: a document with one video device of model `qxl`,
the rule run with `vga` and then with `virtio`. -/
theorem C10_videoModel_idempotent_witness :
    (videoModelRule (Annotations.empty.insert videoModelAnnotation "vga")
        { Devices := some { Videos := [{ Model := { Type_ := "qxl" } }] } } >>=
      videoModelRule (Annotations.empty.insert videoModelAnnotation "virtio")) =
    videoModelRule (Annotations.empty.insert videoModelAnnotation "virtio")
      { Devices := some { Videos := [{ Model := { Type_ := "qxl" } }] } } :=
  (C10_videoModel_idempotent (Annotations.empty.insert videoModelAnnotation "vga")
    (Annotations.empty.insert videoModelAnnotation "virtio")
    { Devices := some { Videos := [{ Model := { Type_ := "qxl" } }] } } "vga" "virtio" rfl rfl).1

/-! ## Running the sequence twice (C11) -/

theorem baseBoardRule_baseBoards (ann : Annotations) (d d' : Domain)
    (h : baseBoardRule ann d = .ok d') :
    d'.baseBoards = d.baseBoards ++
      match ann baseBoardManufacturerAnnotation with
      | none => []
      | some v => [manufacturerBoard v] := by
  cases hk : ann baseBoardManufacturerAnnotation with
  | none => rw [baseBoardRule_absent ann d hk] at h; cases h; simp
  | some v =>
    cases hos : d.OS with
    | none => rw [baseBoardRule_nil ann d v hk hos] at h; cases h
    | some os =>
      rw [baseBoardRule_present ann d v os hk hos] at h
      cases h
      simp [Domain.baseBoards, manufacturerBoard]

theorem eglHeadlessRule_graphics (ann : Annotations) (d d' : Domain)
    (h : eglHeadlessRule ann d = .ok d') :
    d'.graphics = d.graphics.map fun gs => gs ++
      match ann eglHeadlessAnnotation with
      | none => []
      | some _ => [eglHeadlessGraphic] := by
  cases hk : ann eglHeadlessAnnotation with
  | none => rw [eglHeadlessRule_absent ann d hk] at h; cases h; simp
  | some v =>
    cases hds : d.Devices with
    | none => rw [eglHeadlessRule_nil ann d v hk hds] at h; cases h
    | some ds =>
      rw [eglHeadlessRule_present ann d v ds hk hds] at h
      cases h
      simp [Domain.graphics, eglHeadlessGraphic, hds]

theorem vgpuRule_hostdevs (ann : Annotations) (d d' : Domain)
    (h : vgpuRule ann d = .ok d') :
    d'.hostdevs = d.hostdevs.map fun hs => hs ++
      match ann vgpuAnnotation with
      | none => []
      | some v => [vgpuHostdev v] := by
  cases hk : ann vgpuAnnotation with
  | none => rw [vgpuRule_absent ann d hk] at h; cases h; simp
  | some v =>
    cases hds : d.Devices with
    | none => rw [vgpuRule_nil ann d v hk hds] at h; cases h
    | some ds =>
      rw [vgpuRule_present ann d v ds hk hds] at h
      cases h
      simp [Domain.hostdevs, vgpuHostdev, hds]

/-- What one run of the sequence does to the three append-only lists. -/
theorem applyRules_appends (u : String → Option (List String)) (ann : Annotations)
    (d d' : Domain) (h : applyRules u ann d = .ok d') :
    (d'.baseBoards = d.baseBoards ++
      match ann baseBoardManufacturerAnnotation with
      | none => []
      | some v => [manufacturerBoard v]) ∧
    (d'.graphics = d.graphics.map fun gs => gs ++
      match ann eglHeadlessAnnotation with
      | none => []
      | some _ => [eglHeadlessGraphic]) ∧
    (d'.hostdevs = d.hostdevs.map fun hs => hs ++
      match ann vgpuAnnotation with
      | none => []
      | some v => [vgpuHostdev v]) := by
  obtain ⟨d1, d2, d3, d4, h1, h2, h3, h4, h5⟩ := (applyRules_ok_iff u ann d d').1 h
  have f1 := baseBoardRule_frame ann d d1 h1
  have f2 := videoModelRule_frame ann d1 d2 h2
  have f3 := eglHeadlessRule_frame ann d2 d3 h3
  have f4 := vgpuRule_frame ann d3 d4 h4
  have f5 := qemuArgsRule_frame u ann d4 d' h5
  refine ⟨?_, ?_, ?_⟩
  · have e : d'.baseBoards = d1.baseBoards := by
      simp only [Domain.baseBoards, f5.2.1, f4.2.1, f3.2.1, f2.2.1]
    rw [e, baseBoardRule_baseBoards ann d d1 h1]
  · have e5 : d'.graphics = d4.graphics := by simp only [Domain.graphics, f5.2.2.1]
    have e1 : d1.graphics = d.graphics := by simp only [Domain.graphics, f1.1]
    rw [e5, f4.2.2.2.2.2.1, eglHeadlessRule_graphics ann d2 d3 h3, f2.2.2.2.2.1, e1]
  · have e5 : d'.hostdevs = d4.hostdevs := by simp only [Domain.hostdevs, f5.2.2.1]
    have e1 : d1.hostdevs = d.hostdevs := by simp only [Domain.hostdevs, f1.1]
    rw [e5, vgpuRule_hostdevs ann d3 d4 h4, f3.2.2.2.2.2.1, f2.2.2.2.2.2.1, e1]

/-- A run that completes went through existing nodes, and leaves them existing. -/
theorem applyRules_nodes (u : String → Option (List String)) (ann : Annotations)
    (d d' : Domain) (h : applyRules u ann d = .ok d') :
    d'.OS.isSome = d.OS.isSome ∧ d'.Devices.isSome = d.Devices.isSome ∧
    (ann baseBoardManufacturerAnnotation ≠ none → d.OS ≠ none) ∧
    ((ann videoModelAnnotation ≠ none ∨ ann eglHeadlessAnnotation ≠ none ∨
      ann vgpuAnnotation ≠ none) → d.Devices ≠ none) := by
  obtain ⟨d1, d2, d3, d4, h1, h2, h3, h4, h5⟩ := (applyRules_ok_iff u ann d d').1 h
  have f1 := baseBoardRule_frame ann d d1 h1
  have f2 := videoModelRule_frame ann d1 d2 h2
  have f3 := eglHeadlessRule_frame ann d2 d3 h3
  have f4 := vgpuRule_frame ann d3 d4 h4
  have f5 := qemuArgsRule_frame u ann d4 d' h5
  have hOS : d'.OS.isSome = d.OS.isSome := by rw [f5.1, f4.1, f3.1, f2.1, f1.2.2.2]
  have hD3 : d3.Devices.isSome = d.Devices.isSome := by
    rw [f3.2.2.2.2.2.2, f2.2.2.2.2.2.2, f1.1]
  have hD2 : d2.Devices.isSome = d.Devices.isSome := by rw [f2.2.2.2.2.2.2, f1.1]
  have hDev : d'.Devices.isSome = d.Devices.isSome := by
    rw [f5.2.2.1, f4.2.2.2.2.2.2, hD3]
  refine ⟨hOS, hDev, ?_, ?_⟩
  · intro hk hos
    cases hv : ann baseBoardManufacturerAnnotation with
    | none => exact hk hv
    | some v => rw [baseBoardRule_nil ann d v hv hos] at h1; cases h1
  · intro hk hds
    have n1 : d1.Devices = none := by rw [f1.1]; exact hds
    have n2 : d2.Devices = none := by
      have := hD2; rw [hds] at this
      cases hx : d2.Devices with
      | none => rfl
      | some x => rw [hx] at this; simp at this
    have n3 : d3.Devices = none := by
      have := hD3; rw [hds] at this
      cases hx : d3.Devices with
      | none => rfl
      | some x => rw [hx] at this; simp at this
    rcases hk with hk | hk | hk
    · cases hv : ann videoModelAnnotation with
      | none => exact hk hv
      | some v => rw [videoModelRule_nil ann d1 v hv n1] at h2; cases h2
    · cases hv : ann eglHeadlessAnnotation with
      | none => exact hk hv
      | some v => rw [eglHeadlessRule_nil ann d2 v hv n2] at h3; cases h3
    · cases hv : ann vgpuAnnotation with
      | none => exact hk hv
      | some v => rw [vgpuRule_nil ann d3 v hv n3] at h4; cases h4

/-- Whenever the rule sequence produces a document `d1` from `d`, feeding `d1`
back in with the same annotations produces a document `d2` again, and nothing is
deduplicated: with the eglHeadless key present the graphics list of `d2` is that
of `d` followed by two headless records; with the vgpu key present the
host-device list is that of `d` followed by two records with the same UUID and
the PCI address (0,0,5,0); with the base-board key present the base-board list
is that of `d` followed by two equal manufacturer records; so with any of the
three keys present `d2` differs from `d1`.  The first run produces a document
whenever the nodes that the present keys write through exist. -/
theorem applyRules_twice (u : String → Option (List String))
    (ann : Annotations) (d : Domain) :
    (∀ d1, applyRules u ann d = .ok d1 →
      ∃ d2, applyRules u ann d1 = .ok d2 ∧
        (∀ v, ann eglHeadlessAnnotation = some v →
          ∃ gs, d.graphics = some gs ∧
            d2.graphics = some (gs ++ [eglHeadlessGraphic, eglHeadlessGraphic]) ∧
            (gs ++ [eglHeadlessGraphic, eglHeadlessGraphic]).length = gs.length + 2) ∧
        (∀ v, ann vgpuAnnotation = some v →
          ∃ hs, d.hostdevs = some hs ∧
            d2.hostdevs = some (hs ++ [vgpuHostdev v, vgpuHostdev v]) ∧
            (hs ++ [vgpuHostdev v, vgpuHostdev v]).length = hs.length + 2) ∧
        (∀ v, ann baseBoardManufacturerAnnotation = some v →
          d2.baseBoards = d.baseBoards ++ [manufacturerBoard v, manufacturerBoard v] ∧
          d2.baseBoards.length = d.baseBoards.length + 2) ∧
        ((ann eglHeadlessAnnotation ≠ none ∨ ann vgpuAnnotation ≠ none ∨
          ann baseBoardManufacturerAnnotation ≠ none) → d2 ≠ d1)) ∧
    ((ann baseBoardManufacturerAnnotation ≠ none → d.OS ≠ none) →
      ((ann videoModelAnnotation ≠ none ∨ ann eglHeadlessAnnotation ≠ none ∨
        ann vgpuAnnotation ≠ none) → d.Devices ≠ none) →
      ∃ d1, applyRules u ann d = .ok d1) := by
  refine ⟨?_, applyRules_ok_of_nodes u ann d⟩
  intro d1 h1
  have n1 := applyRules_nodes u ann d d1 h1
  have a1 := applyRules_appends u ann d d1 h1
  have hos1 : ann baseBoardManufacturerAnnotation ≠ none → d1.OS ≠ none := by
    intro hk hn
    have := n1.1; rw [hn] at this
    cases hx : d.OS with
    | none => exact n1.2.2.1 hk hx
    | some x => rw [hx] at this; simp at this
  have hds1 : (ann videoModelAnnotation ≠ none ∨ ann eglHeadlessAnnotation ≠ none ∨
      ann vgpuAnnotation ≠ none) → d1.Devices ≠ none := by
    intro hk hn
    have := n1.2.1; rw [hn] at this
    cases hx : d.Devices with
    | none => exact n1.2.2.2 hk hx
    | some x => rw [hx] at this; simp at this
  obtain ⟨d2, h2⟩ := applyRules_ok_of_nodes u ann d1 hos1 hds1
  have a2 := applyRules_appends u ann d1 d2 h2
  have hegl : ∀ v, ann eglHeadlessAnnotation = some v →
      ∃ gs, d.graphics = some gs ∧ d1.graphics = some (gs ++ [eglHeadlessGraphic]) ∧
        d2.graphics = some (gs ++ [eglHeadlessGraphic, eglHeadlessGraphic]) := by
    intro v hv
    cases hds : d.Devices with
    | none => exact absurd hds (n1.2.2.2 (Or.inr (Or.inl (by simp [hv]))))
    | some ds =>
      have hg : d.graphics = some ds.Graphics := by simp [Domain.graphics, hds]
      have g1 : d1.graphics = some (ds.Graphics ++ [eglHeadlessGraphic]) := by
        rw [a1.2.1, hg]; simp [hv]
      refine ⟨ds.Graphics, hg, g1, ?_⟩
      rw [a2.2.1, g1]; simp [hv]
  have hvg : ∀ v, ann vgpuAnnotation = some v →
      ∃ hs, d.hostdevs = some hs ∧ d1.hostdevs = some (hs ++ [vgpuHostdev v]) ∧
        d2.hostdevs = some (hs ++ [vgpuHostdev v, vgpuHostdev v]) := by
    intro v hv
    cases hds : d.Devices with
    | none => exact absurd hds (n1.2.2.2 (Or.inr (Or.inr (by simp [hv]))))
    | some ds =>
      have hg : d.hostdevs = some ds.Hostdevs := by simp [Domain.hostdevs, hds]
      have g1 : d1.hostdevs = some (ds.Hostdevs ++ [vgpuHostdev v]) := by
        rw [a1.2.2, hg]; simp [hv]
      refine ⟨ds.Hostdevs, hg, g1, ?_⟩
      rw [a2.2.2, g1]; simp [hv]
  have hbb : ∀ v, ann baseBoardManufacturerAnnotation = some v →
      d1.baseBoards = d.baseBoards ++ [manufacturerBoard v] ∧
      d2.baseBoards = d.baseBoards ++ [manufacturerBoard v, manufacturerBoard v] := by
    intro v hv
    have g1 : d1.baseBoards = d.baseBoards ++ [manufacturerBoard v] := by
      rw [a1.1]; simp [hv]
    refine ⟨g1, ?_⟩
    rw [a2.1, g1]; simp [hv]
  refine ⟨d2, h2, ?_, ?_, ?_, ?_⟩
  · intro v hv
    obtain ⟨gs, hg, _, g2⟩ := hegl v hv
    exact ⟨gs, hg, g2, by simp⟩
  · intro v hv
    obtain ⟨hs, hg, _, g2⟩ := hvg v hv
    exact ⟨hs, hg, g2, by simp⟩
  · intro v hv
    obtain ⟨_, g2⟩ := hbb v hv
    exact ⟨g2, by rw [g2]; simp⟩
  · intro hk heq
    rcases hk with hk | hk | hk
    · cases hv : ann eglHeadlessAnnotation with
      | none => exact hk hv
      | some v =>
        obtain ⟨gs, _, g1, g2⟩ := hegl v hv
        rw [heq, g1] at g2
        have := congrArg (Option.map List.length) g2
        simp at this
    · cases hv : ann vgpuAnnotation with
      | none => exact hk hv
      | some v =>
        obtain ⟨hs, _, g1, g2⟩ := hvg v hv
        rw [heq, g1] at g2
        have := congrArg (Option.map List.length) g2
        simp at this
    · cases hv : ann baseBoardManufacturerAnnotation with
      | none => exact hk hv
      | some v =>
        obtain ⟨g1, g2⟩ := hbb v hv
        rw [heq, g1] at g2
        have := congrArg List.length g2
        simp at this

/-- The eglHeadless key alone, a document with an empty
`/devices` node; two runs leave two headless records. -/
theorem applyRules_twice_example :
    ∃ d1 d2, applyRules (fun _ => none) (Annotations.empty.insert eglHeadlessAnnotation "")
        { Devices := some {} } = .ok d1 ∧
      applyRules (fun _ => none) (Annotations.empty.insert eglHeadlessAnnotation "") d1 =
        .ok d2 ∧
      d2.graphics = some [eglHeadlessGraphic, eglHeadlessGraphic] ∧ d2 ≠ d1 := by
  have h := applyRules_twice (fun _ => none)
    (Annotations.empty.insert eglHeadlessAnnotation "") { Devices := some {} }
  obtain ⟨d1, h1⟩ := h.2 (fun hk => absurd rfl hk) (fun _ => by simp)
  obtain ⟨d2, h2, hg, _, _, hne⟩ := h.1 d1 h1
  obtain ⟨gs, hgs, hg2, _⟩ := hg "" rfl
  have e : gs = [] := by
    simp [Domain.graphics] at hgs
    exact hgs
  subst e
  exact ⟨d1, d2, h1, h2, by simpa using hg2, hne (Or.inl (fun hk => by cases hk))⟩

/-- C11. Feeding the output back in on the document without a `/devices` node
and with the eglHeadless key present: the first run already ends in the
nil-pointer panic of the append to `domain.Devices.Graphics`, so there is no
output to feed back, no graphics list two records longer, and running twice is
the same panic as running once.  The same holds for the vgpu key, and for the
base-board key on a document without `/os`. -/
theorem C11_no_devices_twice_is_once :
    (∀ u, applyRules u (Annotations.empty.insert eglHeadlessAnnotation "") {} =
      .error .nilPointerDereference) ∧
    (∀ u, (applyRules u (Annotations.empty.insert eglHeadlessAnnotation "") {} >>=
        applyRules u (Annotations.empty.insert eglHeadlessAnnotation "")) =
      applyRules u (Annotations.empty.insert eglHeadlessAnnotation "") {}) ∧
    (∀ u, (applyRules u (Annotations.empty.insert vgpuAnnotation "u1") {} >>=
        applyRules u (Annotations.empty.insert vgpuAnnotation "u1")) =
      applyRules u (Annotations.empty.insert vgpuAnnotation "u1") {}) ∧
    (∀ u, (applyRules u (Annotations.empty.insert baseBoardManufacturerAnnotation "Acme") {} >>=
        applyRules u (Annotations.empty.insert baseBoardManufacturerAnnotation "Acme")) =
      applyRules u (Annotations.empty.insert baseBoardManufacturerAnnotation "Acme") {}) :=
  ⟨fun _ => rfl, fun _ => rfl, fun _ => rfl, fun _ => rfl⟩

/-! ## The info service (C12) -/

/-- C12. `Info` returns a constant capability descriptor: for every receiver and
every request the call succeeds and returns the name `android-x86`, a version
list with exactly one element, the version constant of the v1alpha1 hook
protocol, and a hook-point list with exactly one element, named
`OnDefineDomain` with priority 0; any two calls return the same result. -/
theorem C12_Info_constant (s s' : infoServer) (Version : String) (params params' : InfoParams) :
    (∃ r, s.Info Version params = .ok r ∧ r.Name = "android-x86" ∧
      r.Versions = [Version] ∧ r.Versions.length = 1 ∧
      r.HookPoints = [{ Name := "OnDefineDomain", Priority := 0 }] ∧
      r.HookPoints.length = 1) ∧
    s'.Info Version params' = s.Info Version params :=
  ⟨⟨_, rfl, rfl, rfl, rfl, rfl, rfl⟩, rfl⟩

/-! ## Empty annotation values (C13) -/

/-- On a document with `/os` and `/devices`, each of the four keys with the empty
string as value triggers its edit. -/
theorem empty_value_triggers (ann : Annotations) (d : Domain) (os : DomainOS)
    (ds : DomainDeviceList) (hos : d.OS = some os) (hds : d.Devices = some ds) :
    (ann baseBoardManufacturerAnnotation = some "" →
      ∃ d' s, baseBoardRule ann d = .ok d' ∧ d'.smbios = some { Mode := "sysinfo" } ∧
        d'.SysInfo = some s ∧ s.Type_ = "smbios" ∧
        s.BaseBoard = d.baseBoards ++ [{ Entry := [{ Name := "manufacturer", Value := "" }] }]) ∧
    (ann videoModelAnnotation = some "" →
      ∃ d' v0 vs, videoModelRule ann d = .ok d' ∧ d'.videos = some (v0 :: vs) ∧
        v0.Model.Type_ = "" ∧ (ds.Videos = [] → vs = [])) ∧
    (ann eglHeadlessAnnotation = some "" →
      ∃ d', eglHeadlessRule ann d = .ok d' ∧
        d'.graphics = some (ds.Graphics ++ [{ EGLHeadless := some {} }])) ∧
    (ann vgpuAnnotation = some "" →
      ∃ d', vgpuRule ann d = .ok d' ∧ d'.hostdevs = some (ds.Hostdevs ++ [vgpuHostdev ""])) := by
  refine ⟨fun h => baseBoardRule_post ann d "" os h hos, ?_,
    fun h => eglHeadlessRule_post ann d "" ds h hds, fun h => vgpuRule_post ann d "" ds h hds⟩
  intro h
  rw [videoModelRule_present ann d "" ds h hds]
  cases hv : ds.Videos with
  | nil =>
    exact ⟨_, { Model := { Type_ := "" } }, [], rfl, by simp [Domain.videos, hv], rfl,
      fun _ => rfl⟩
  | cons v0 vs =>
    exact ⟨_, { v0 with Model := { v0.Model with Type_ := "" } }, vs, rfl,
      by simp [Domain.videos, hv], rfl, fun e => by cases e⟩

/-- C13. The empty string as value on the initially empty document: the key is
found, so the edit runs, but the base-board edit writes through the nil
`domain.OS` and the video-model, headless-graphics and vGPU edits go through the
nil `domain.Devices`; each ends in a nil-pointer panic instead of appending its
record or setting the model type. -/
theorem C13_empty_value_on_empty_document_panics :
    baseBoardRule (Annotations.empty.insert baseBoardManufacturerAnnotation "") {} =
      .error .nilPointerDereference ∧
    videoModelRule (Annotations.empty.insert videoModelAnnotation "") {} =
      .error .nilPointerDereference ∧
    eglHeadlessRule (Annotations.empty.insert eglHeadlessAnnotation "") {} =
      .error .nilPointerDereference ∧
    vgpuRule (Annotations.empty.insert vgpuAnnotation "") {} =
      .error .nilPointerDereference ∧
    ∀ u, applyRules u (Annotations.empty.insert baseBoardManufacturerAnnotation "") {} =
      .error .nilPointerDereference :=
  ⟨rfl, rfl, rfl, rfl, fun _ => rfl⟩

/-! ## Frame of the whole sequence (C14) -/

theorem baseBoardRule_rest (ann : Annotations) (d d' : Domain)
    (h : baseBoardRule ann d = .ok d') :
    d'.osRest = d.osRest ∧ d'.sysInfoRest = d.sysInfoRest := by
  cases hk : ann baseBoardManufacturerAnnotation with
  | none => rw [baseBoardRule_absent ann d hk] at h; cases h; simp
  | some v =>
    cases hos : d.OS with
    | none => rw [baseBoardRule_nil ann d v hk hos] at h; cases h
    | some os =>
      rw [baseBoardRule_present ann d v os hk hos] at h
      cases h
      simp [Domain.osRest, Domain.sysInfoRest, hos]

theorem videoModelRule_rest (ann : Annotations) (d d' : Domain)
    (h : videoModelRule ann d = .ok d') :
    d'.devicesRest = d.devicesRest ∧
    ∀ v0 vs, d.videos = some (v0 :: vs) →
      ∃ v0', d'.videos = some (v0' :: vs) ∧ v0'.rest = v0.rest ∧
        v0'.Model.rest = v0.Model.rest := by
  cases hk : ann videoModelAnnotation with
  | none =>
    rw [videoModelRule_absent ann d hk] at h
    cases h
    exact ⟨rfl, fun v0 vs hv => ⟨v0, hv, rfl, rfl⟩⟩
  | some v =>
    cases hds : d.Devices with
    | none => rw [videoModelRule_nil ann d v hk hds] at h; cases h
    | some ds =>
      rw [videoModelRule_present ann d v ds hk hds] at h
      cases h
      refine ⟨by simp [Domain.devicesRest, hds], ?_⟩
      intro v0 vs hv
      have hv' : ds.Videos = v0 :: vs := by simpa [Domain.videos, hds] using hv
      exact ⟨{ v0 with Model := { v0.Model with Type_ := v } },
        by simp [Domain.videos, hv'], rfl, rfl⟩

theorem eglHeadlessRule_rest (ann : Annotations) (d d' : Domain)
    (h : eglHeadlessRule ann d = .ok d') : d'.devicesRest = d.devicesRest := by
  cases hk : ann eglHeadlessAnnotation with
  | none => rw [eglHeadlessRule_absent ann d hk] at h; cases h; rfl
  | some v =>
    cases hds : d.Devices with
    | none => rw [eglHeadlessRule_nil ann d v hk hds] at h; cases h
    | some ds =>
      rw [eglHeadlessRule_present ann d v ds hk hds] at h
      cases h
      simp [Domain.devicesRest, hds]

theorem vgpuRule_rest (ann : Annotations) (d d' : Domain)
    (h : vgpuRule ann d = .ok d') : d'.devicesRest = d.devicesRest := by
  cases hk : ann vgpuAnnotation with
  | none => rw [vgpuRule_absent ann d hk] at h; cases h; rfl
  | some v =>
    cases hds : d.Devices with
    | none => rw [vgpuRule_nil ann d v hk hds] at h; cases h
    | some ds =>
      rw [vgpuRule_present ann d v ds hk hds] at h
      cases h
      simp [Domain.devicesRest, hds]

theorem qemuArgsRule_rest (u : String → Option (List String)) (ann : Annotations)
    (d d' : Domain) (h : qemuArgsRule u ann d = .ok d') : d'.qemuRest = d.qemuRest := by
  cases hk : ann qemuArgsAnnotation with
  | none => rw [qemuArgsRule_absent u ann d hk] at h; cases h; rfl
  | some v =>
    cases hu : u v with
    | none => rw [qemuArgsRule_malformed u ann d v hk hu] at h; cases h; rfl
    | some l =>
      rw [qemuArgsRule_decoded u ann d v l hk hu] at h
      cases h
      simp [Domain.qemuRest]

/-- The sequence reads the annotation map at the five keys only. -/
theorem applyRules_congr (u : String → Option (List String)) (ann ann' : Annotations)
    (d : Domain)
    (h1 : ann' baseBoardManufacturerAnnotation = ann baseBoardManufacturerAnnotation)
    (h2 : ann' videoModelAnnotation = ann videoModelAnnotation)
    (h3 : ann' eglHeadlessAnnotation = ann eglHeadlessAnnotation)
    (h4 : ann' vgpuAnnotation = ann vgpuAnnotation)
    (h5 : ann' qemuArgsAnnotation = ann qemuArgsAnnotation) :
    applyRules u ann' d = applyRules u ann d := by
  have e1 := fun x => baseBoardRule_congr ann' ann x h1
  have e2 := fun x => videoModelRule_congr ann' ann x h2
  have e3 := fun x => eglHeadlessRule_congr ann' ann x h3
  have e4 := fun x => vgpuRule_congr ann' ann x h4
  have e5 := fun x => qemuArgsRule_congr u ann' ann x h5
  simp only [applyRules, e1, e2, e3, e4, e5]

/-- C14. Frame of the whole rule sequence: in every document the sequence
produces, the fields of the domain outside the four nodes, the fields of `/os`
other than `smbios`, the sections of `/sysinfo` other than type and base boards,
the device lists other than videos, graphics and host devices, and the parts of
the `qemu:commandline` block other than its arguments are those of the input;
a first video device of the input keeps every field but its model type and the
devices after it are kept; the sequence reads the annotation map at the five
keys only, and `OnDefineDomain` gives equal results for two descriptors that
decode to equal annotation maps; the sequence does produce a document whenever
the nodes that the present keys write through exist. -/
theorem C14_frame_of_the_sequence (c : Codecs) (ann : Annotations) (d : Domain) :
    (∀ d', applyRules c.unmarshalArgs ann d = .ok d' →
      d'.rest = d.rest ∧ d'.osRest = d.osRest ∧ d'.sysInfoRest = d.sysInfoRest ∧
      d'.devicesRest = d.devicesRest ∧ d'.qemuRest = d.qemuRest ∧
      d'.OS.isSome = d.OS.isSome ∧ d'.Devices.isSome = d.Devices.isSome ∧
      ∀ v0 vs, d.videos = some (v0 :: vs) →
        ∃ v0', d'.videos = some (v0' :: vs) ∧ v0'.rest = v0.rest ∧
          v0'.Model.rest = v0.Model.rest) ∧
    (∀ ann' : Annotations,
      ann' baseBoardManufacturerAnnotation = ann baseBoardManufacturerAnnotation →
      ann' videoModelAnnotation = ann videoModelAnnotation →
      ann' eglHeadlessAnnotation = ann eglHeadlessAnnotation →
      ann' vgpuAnnotation = ann vgpuAnnotation →
      ann' qemuArgsAnnotation = ann qemuArgsAnnotation →
      applyRules c.unmarshalArgs ann' d = applyRules c.unmarshalArgs ann d) ∧
    (∀ vmiJSON vmiJSON' domainXML, c.unmarshalVMI vmiJSON = c.unmarshalVMI vmiJSON' →
      OnDefineDomain c vmiJSON domainXML = OnDefineDomain c vmiJSON' domainXML) ∧
    ((ann baseBoardManufacturerAnnotation ≠ none → d.OS ≠ none) →
      ((ann videoModelAnnotation ≠ none ∨ ann eglHeadlessAnnotation ≠ none ∨
        ann vgpuAnnotation ≠ none) → d.Devices ≠ none) →
      ∃ d', applyRules c.unmarshalArgs ann d = .ok d') := by
  refine ⟨?_, fun ann' => applyRules_congr c.unmarshalArgs ann ann' d, ?_,
    applyRules_ok_of_nodes c.unmarshalArgs ann d⟩
  · intro d' h
    have n := applyRules_nodes c.unmarshalArgs ann d d' h
    obtain ⟨d1, d2, d3, d4, h1, h2, h3, h4, h5⟩ := (applyRules_ok_iff _ ann d d').1 h
    have f1 := baseBoardRule_frame ann d d1 h1
    have f2 := videoModelRule_frame ann d1 d2 h2
    have f3 := eglHeadlessRule_frame ann d2 d3 h3
    have f4 := vgpuRule_frame ann d3 d4 h4
    have f5 := qemuArgsRule_frame _ ann d4 d' h5
    have r1 := baseBoardRule_rest ann d d1 h1
    have r2 := videoModelRule_rest ann d1 d2 h2
    have r3 := eglHeadlessRule_rest ann d2 d3 h3
    have r4 := vgpuRule_rest ann d3 d4 h4
    have r5 := qemuArgsRule_rest _ ann d4 d' h5
    refine ⟨?_, ?_, ?_, ?_, ?_, n.1, n.2.1, ?_⟩
    · rw [f5.2.2.2, f4.2.2.2.1, f3.2.2.2.1, f2.2.2.2.1, f1.2.2.1]
    · have e : d'.osRest = d1.osRest := by
        simp only [Domain.osRest, f5.1, f4.1, f3.1, f2.1]
      rw [e, r1.1]
    · have e : d'.sysInfoRest = d1.sysInfoRest := by
        simp only [Domain.sysInfoRest, f5.2.1, f4.2.1, f3.2.1, f2.2.1]
      rw [e, r1.2]
    · have e5 : d'.devicesRest = d4.devicesRest := by simp only [Domain.devicesRest, f5.2.2.1]
      have e1 : d1.devicesRest = d.devicesRest := by simp only [Domain.devicesRest, f1.1]
      rw [e5, r4, r3, r2.1, e1]
    · have e : d4.qemuRest = d.qemuRest := by
        simp only [Domain.qemuRest, f4.2.2.1, f3.2.2.1, f2.2.2.1, f1.2.1]
      rw [r5, e]
    · intro v0 vs hv
      have e1 : d1.videos = d.videos := by simp only [Domain.videos, f1.1]
      obtain ⟨v0', hv', hr, hm⟩ := r2.2 v0 vs (e1.trans hv)
      have e5 : d'.videos = d4.videos := by simp only [Domain.videos, f5.2.2.1]
      exact ⟨v0', by rw [e5, f4.2.2.2.2.1, f3.2.2.2.2.1, hv'], hr, hm⟩
  · intro vmiJSON vmiJSON' domainXML hv
    simp only [OnDefineDomain, hv]

/-- C14 at a concrete input: all five keys present on a document with `/os` and
`/devices`; the sequence produces a document whose unmodelled parts are those of
the input. -/
theorem C14_frame_of_the_sequence_witness :
    ∃ d', applyRules fooBarDecoder allKeys
        { OS := some { rest := [("type", "hvm")] }, Devices := some {},
          rest := [("name", "vm")] } = .ok d' ∧
      d'.rest = [("name", "vm")] ∧ d'.osRest = some [("type", "hvm")] := by
  have h := C14_frame_of_the_sequence (constCodecs allKeys {}) allKeys
    { OS := some { rest := [("type", "hvm")] }, Devices := some {}, rest := [("name", "vm")] }
  obtain ⟨d', hd'⟩ := h.2.2.2 (fun _ => by simp) (fun _ => by simp)
  have f := h.1 d' hd'
  exact ⟨d', hd', f.1, f.2.1⟩

/-! ## Runtime faults of the sequence (C15) -/

/-- The index expression `Videos[0]` is always in range: the video-model edit
never ends in an index-out-of-range panic. -/
theorem videoModelRule_index_in_range (ann : Annotations) (d : Domain) :
    videoModelRule ann d ≠ .error .indexOutOfRange := by
  rw [videoModelRule_eq]
  cases ann videoModelAnnotation with
  | none => simp
  | some v => cases d.Devices <;> simp

/-- The sequence completes exactly when the nodes that the present keys write
through exist. -/
theorem applyRules_ok_iff_nodes (u : String → Option (List String)) (ann : Annotations)
    (d : Domain) :
    (∃ d', applyRules u ann d = .ok d') ↔
      (ann baseBoardManufacturerAnnotation ≠ none → d.OS ≠ none) ∧
      ((ann videoModelAnnotation ≠ none ∨ ann eglHeadlessAnnotation ≠ none ∨
        ann vgpuAnnotation ≠ none) → d.Devices ≠ none) := by
  constructor
  · rintro ⟨d', h⟩
    have n := applyRules_nodes u ann d d' h
    exact ⟨n.2.2.1, n.2.2.2⟩
  · rintro ⟨h1, h2⟩
    exact applyRules_ok_of_nodes u ann d h1 h2

/-- C15. The rule sequence is not total on decoded documents: on the initially
empty document (no `/os`, no `/devices`) the base-board edit writes
`domain.OS.SMBios` through a nil pointer, and the video-model, headless-graphics
and vGPU edits read `domain.Devices` through a nil pointer; each of the four
edits, and the sequence with any one of the four keys present, ends in a
nil-pointer panic. -/
theorem C15_edits_panic_on_absent_parent :
    baseBoardRule (Annotations.empty.insert baseBoardManufacturerAnnotation "x") {} =
      .error .nilPointerDereference ∧
    videoModelRule (Annotations.empty.insert videoModelAnnotation "x") {} =
      .error .nilPointerDereference ∧
    eglHeadlessRule (Annotations.empty.insert eglHeadlessAnnotation "x") {} =
      .error .nilPointerDereference ∧
    vgpuRule (Annotations.empty.insert vgpuAnnotation "x") {} =
      .error .nilPointerDereference ∧
    (∀ u, applyRules u (Annotations.empty.insert baseBoardManufacturerAnnotation "x") {} =
      .error .nilPointerDereference) ∧
    (∀ u, applyRules u (Annotations.empty.insert videoModelAnnotation "x") {} =
      .error .nilPointerDereference) ∧
    (∀ u, applyRules u (Annotations.empty.insert eglHeadlessAnnotation "x") {} =
      .error .nilPointerDereference) ∧
    (∀ u, applyRules u (Annotations.empty.insert vgpuAnnotation "x") {} =
      .error .nilPointerDereference) :=
  ⟨rfl, rfl, rfl, rfl, fun _ => rfl, fun _ => rfl, fun _ => rfl, fun _ => rfl⟩

/-! ## An empty decoded argument list (C16) -/

/-- C16. An empty decoded argument sequence still creates the block: when the
args key is present with a value that decodes to no strings, the args edit
always completes; on a document without a `qemu:commandline` block its output
has a block with an empty argument list, so it differs from the input; on a
document with a block the output is the input, block and argument list
unchanged.  The same holds of every document the whole rule sequence produces,
and the sequence does produce one whenever the nodes that the other present keys
write through exist. -/
theorem C16_empty_args_create_block (u : String → Option (List String)) (ann : Annotations)
    (d : Domain) (v : String)
    (h : ann qemuArgsAnnotation = some v) (hu : u v = some []) :
    (d.QEMUCommandline = none →
      ∃ d', qemuArgsRule u ann d = .ok d' ∧
        d'.QEMUCommandline = some { Args := [], rest := [] } ∧ d' ≠ d) ∧
    (∀ c, d.QEMUCommandline = some c → qemuArgsRule u ann d = .ok d) ∧
    (∀ d', applyRules u ann d = .ok d' →
      (d.QEMUCommandline = none →
        d'.QEMUCommandline = some { Args := [], rest := [] } ∧ d'.qemuArgs = [] ∧ d' ≠ d) ∧
      (∀ c, d.QEMUCommandline = some c →
        d'.QEMUCommandline = some c ∧ d'.qemuArgs = c.Args)) ∧
    ((ann baseBoardManufacturerAnnotation ≠ none → d.OS ≠ none) →
      ((ann videoModelAnnotation ≠ none ∨ ann eglHeadlessAnnotation ≠ none ∨
        ann vgpuAnnotation ≠ none) → d.Devices ≠ none) →
      ∃ d', applyRules u ann d = .ok d') := by
  have key : ∀ x : Domain, qemuArgsRule u ann x =
      .ok { x with QEMUCommandline := some { Args := x.qemuArgs, rest := x.qemuRest } } := by
    intro x
    rw [qemuArgsRule_decoded u ann x v [] h hu]
    simp [Domain.qemuRest]
  refine ⟨?_, ?_, ?_, applyRules_ok_of_nodes u ann d⟩
  · intro hn
    refine ⟨_, key d, by simp [Domain.qemuArgs, Domain.qemuRest, hn], ?_⟩
    intro e
    have := congrArg Domain.QEMUCommandline e
    simp [hn] at this
  · intro c hc
    rw [key d]
    obtain ⟨si, os, ds, qc, rest⟩ := d
    simp only at hc
    subst hc
    simp [Domain.qemuArgs, Domain.qemuRest]
  · intro d' hd'
    obtain ⟨d4, hq, h5⟩ := applyRules_qemu_chain u ann d d' hd'
    rw [key d4] at h5
    cases h5
    constructor
    · intro hn
      refine ⟨by simp [Domain.qemuArgs, Domain.qemuRest, hq, hn],
        by simp [Domain.qemuArgs, hq, hn], ?_⟩
      intro e
      have := congrArg Domain.QEMUCommandline e
      simp [hn] at this
    · intro c hc
      simp [Domain.qemuArgs, Domain.qemuRest, hq, hc]

/-- C16 at a concrete input: the value `null` decodes to no strings; on the empty
document the args edit creates an empty `qemu:commandline` block. -/
theorem C16_empty_args_create_block_witness :
    ∃ d', qemuArgsRule emptyListDecoder (Annotations.empty.insert qemuArgsAnnotation "null") {} =
        .ok d' ∧
      d'.QEMUCommandline = some { Args := [], rest := [] } ∧ d' ≠ {} :=
  (C16_empty_args_create_block emptyListDecoder
    (Annotations.empty.insert qemuArgsAnnotation "null") {} "null" rfl rfl).1 rfl

end AndroidX86Hook
